import Mathlib

/-! Shallow embedding of the class `Problem` from `omgtools/problems/problem.py`:
the danger-zone enlargement (`enlarge_danger_zones`), the velocity-limit
governor (`update_vehicle_limits`), the solver-status handling of `solve`, and
`reset_init_guess`.  Numeric values are modelled as rationals.  The low-level
geometry primitives (`euclidean_distance_between_points`,
`distance_between_points`, `circle_polyhedron_intersection`,
`shapes_overlap`, `get_vertices`) live outside this file's source and are
treated by the repository as black boxes, so they are parameters of the model
(a `Geometry` record).  Positions are two-dimensional points; the source drops
the orientation component (`veh_pos[:2]`) before using a position, so the
model stores the position part directly. -/

abbrev Point : Type := ℚ × ℚ

/-- Shape of a vehicle or danger zone: `Circle(radius)` or
`Rectangle(width, height)` with its stored vertex list
(`shape.vertices`, regenerated by `get_vertices` after a resize). -/
inductive Shape where
  | circle (radius : ℚ)
  | rectangle (width height : ℚ) (vertices : List Point)
deriving DecidableEq

/-- The reduced velocity bounds of a danger zone (`zone.bounds[...]`). -/
structure ZoneBounds where
  vmax : ℚ
  vxmin : ℚ
  vymin : ℚ
  vxmax : ℚ
  vymax : ℚ
deriving DecidableEq

/-- A danger zone: shape, current position (`zone.signals['position'][:,-1]`),
reduced bounds, and the optional `old_dimensions` marker recording the
pre-enlargement size. -/
structure Zone where
  shape : Shape
  position : Point
  bounds : ZoneBounds
  old_dimensions : Option (List ℚ)
deriving DecidableEq

/-- A vehicle's recorded `original_bounds` dictionary. -/
structure OrigBounds where
  vmax : ℚ
  vxmin : ℚ
  vymin : ℚ
  vxmax : ℚ
  vymax : ℚ
deriving DecidableEq

/-- A numpy 2-D array of spline coefficients: its row data (`tolist()`) and
its column count (`shape[1]`). -/
structure Arr2 where
  data : List (List ℚ)
  cols : Nat
deriving DecidableEq

/-- The slice of vehicle state the modelled methods read.  `signals` is the
most recent recorded state position (`signals['state'][:,-1]`, present after
the first iteration), `prediction` the initial predicted state
(`prediction['state']`), `trajectories` the columns of the stored state
trajectory (`trajectories['state']`), `syslimit` the string
`options['syslimit']`, and `init_spline_value` the value returned by
`get_init_spline_value()`. -/
structure Vehicle where
  signals : Option Point
  prediction : Point
  shapes : List Shape
  syslimit : String
  vmax : ℚ
  vxmax : ℚ
  vymax : ℚ
  amax : ℚ
  axmax : ℚ
  original_bounds : OrigBounds
  velocities : List ℚ
  trajectories : Option (List Point)
  n_seg : Nat
  n_spl : Nat
  init_spline_value : Arr2
deriving DecidableEq

/-- The mutable state the modelled methods touch: the fleet's vehicles and the
environment's danger zones. -/
structure ProblemState where
  vehicles : List Vehicle
  danger_zones : List Zone
deriving DecidableEq

/-- The external geometry collaborators, used as black-box functions:
`euclidean_distance_between_points` (`dist`), `distance_between_points`
(`distBetween`, per-axis distances), `circle_polyhedron_intersection`
(`circlePolyIntersect`), `environment.shapes_overlap` (`shapesOverlap`) and
`Rectangle.get_vertices` (`getVertices`, determined by width and height). -/
structure Geometry where
  dist : Point → Point → ℚ
  distBetween : Point → Point → Point
  circlePolyIntersect : Shape → Point → Shape → Point → Bool
  shapesOverlap : Shape → Point → Shape → Point → Bool
  getVertices : ℚ → ℚ → List Point

/-- Runtime errors the modelled methods can raise.  `indexError` stands for a
Python `IndexError`/`TypeError` on an empty vehicle or shape list,
`infeasibleMargin` for the RuntimeError raised when the backward trajectory
walk runs out of points, `corridorViolation` for the RuntimeError raised when
the outer point lies inside the zone on both axes, and `invalidOption` for the
RuntimeError of an enlargement option other than 1 or 2. -/
inductive ProbErr where
  | indexError
  | infeasibleMargin
  | corridorViolation
  | invalidOption
deriving DecidableEq

/-- Current vehicle position: the last recorded state signal if available,
else the initial prediction (the `hasattr(self.vehicles[0], 'signals')`
check). -/
def vehPosOf (v : Vehicle) : Point :=
  v.signals.getD v.prediction

/-- Index of the first strict running minimum of a list of distances: the
`min_dist = np.inf` / `if dist < min_dist` loop of `enlarge_danger_zones`.
Ties are broken towards the first-encountered element because the comparison
is strict. -/
def argminIdx (l : List ℚ) : Option Nat :=
  (l.foldl (fun (s : Option ℚ × Option Nat × Nat) d =>
      match s with
      | (none, _, n) => (some d, some n, n + 1)
      | (some m, best, n) =>
        if d < m then (some d, some n, n + 1) else (some m, best, n + 1))
    (none, none, 0)).2.1

/-- Index of the danger zone closest to the vehicle position, by the external
planar distance between the vehicle position (orientation dropped) and each
zone's current position. -/
def closestZoneIdx (g : Geometry) (p : Point) (zones : List Zone) : Option Nat :=
  argminIdx (zones.map fun z => g.dist p z.position)

/-- Velocity delta between the vehicle's current limit and the zone's reduced
limit.  Scalar mode (`syslimit == 'norm_2'`): `vmax - zone.bounds['vmax']`.
Per-axis mode: `np.max(old_limits - new_limits)` over the x and y axes. -/
def velDifferenceOf (v : Vehicle) (z : Zone) : ℚ :=
  if v.syslimit = "norm_2" then v.vmax - z.bounds.vmax
  else max (v.vxmax - z.bounds.vxmax) (v.vymax - z.bounds.vymax)

/-- Braking time `np.abs(vel_difference / a)`, with `a = amax` in scalar mode
and `a = axmax` in per-axis mode. -/
def tSlowDownOf (v : Vehicle) (z : Zone) : ℚ :=
  if v.syslimit = "norm_2" then |velDifferenceOf v z / v.amax|
  else |velDifferenceOf v z / v.axmax|

/-- Kinematic braking distance `a*t^2/2 + (v - a*t)*t` with `t = tSlowDownOf`;
the scalar branch uses `amax`/`vmax`, the per-axis branch `axmax`/`vxmax`
(exactly as in the source, which uses the x-axis limit in this formula). -/
def brakeDistOf (v : Vehicle) (z : Zone) : ℚ :=
  if v.syslimit = "norm_2" then
    v.amax * tSlowDownOf v z ^ 2 / 2 + (v.vmax - v.amax * tSlowDownOf v z) * tSlowDownOf v z
  else
    v.axmax * tSlowDownOf v z ^ 2 / 2 + (v.vxmax - v.axmax * tSlowDownOf v z) * tSlowDownOf v z

/-- Characteristic vehicle size: the radius of a circular shape, or the larger
of width and height for a rectangle (the source writes `np.max(width, height)`,
whose intent per the surrounding code is the larger dimension). -/
def vehSizeOf : Shape → ℚ
  | .circle r => r
  | .rectangle w h _ => max w h

/-- The full safety margin: braking distance plus vehicle size
(`brake_dist += veh_size`). -/
def marginOf (v : Vehicle) (s0 : Shape) (z : Zone) : ℚ :=
  brakeDistOf v z + vehSizeOf s0

/-- The backward walk over the stored trajectory (the `while curr_dist <
brake_dist` loop): starting at column `i` with current point `curr` and
accumulated distance `d`, step to column `i-1` adding the travelled distance,
until the accumulated distance reaches `brake`.  `none` models the
RuntimeError raised when the counter drops below 0: in the source the body
executed with `i = 0` decrements `i` to `-1` and raises unconditionally, so
the wrap-around read of `traj[:, -1]` in that final body is unobservable. -/
def backWalk (g : Geometry) (traj : List Point) (brake : ℚ) :
    Nat → Point → ℚ → Option (Point × ℚ)
  | 0, curr, d => if brake ≤ d then some (curr, d) else none
  | i + 1, curr, d =>
    if brake ≤ d then some (curr, d)
    else backWalk g traj brake i (traj.getD i (0, 0))
      (d + g.dist curr (traj.getD i (0, 0)))

/-- Total backward path length from column `i` (current point `curr`) down to
column 0 of the trajectory. -/
def pathLenBack (g : Geometry) (traj : List Point) : Nat → Point → ℚ
  | 0, _ => 0
  | i + 1, curr =>
    g.dist curr (traj.getD i (0, 0)) + pathLenBack g traj i (traj.getD i (0, 0))

/-- First trajectory point whose vehicle footprint intersects the
(pre-enlargement) zone shape, with its index: the `for idx, pos in
enumerate(zip(...))` search of option 2. -/
def findIntersection (g : Geometry) (s0 : Shape) (z : Zone) (traj : List Point) :
    Option (Nat × Point) :=
  match traj.findIdx? (fun pos => g.circlePolyIntersect s0 pos z.shape z.position) with
  | none => none
  | some i => some (i, traj.getD i (0, 0))

/-- The outer point produced by the trajectory-aware search (intersection
search followed by the backward walk), together with its accumulated backward
distance; `none` when the vehicle has no stored trajectory, when no
trajectory point intersects the zone, or when the walk runs out of points. -/
def outerPointOf (g : Geometry) (v : Vehicle) (s0 : Shape) (z : Zone) :
    Option (Point × ℚ) :=
  match v.trajectories with
  | none => none
  | some traj =>
    match findIntersection g s0 z traj with
    | none => none
    | some (i, p) => backWalk g traj (marginOf v s0 z) i p 0

/-- The rectangle-enlargement policy selector: the source fixes `option = 2`
(trajectory-aware) immediately before dispatching on it. -/
def enlargeOption : Nat := 2

/-- Enlargement of one danger zone (the body of `enlarge_danger_zones` from
the `old_dimensions` check onwards).  Returns `ok none` when the zone is left
untouched, `ok (some zone)` when its shape is mutated, and an error for the
RuntimeErrors of the source.  In the corridor-violation case the source has
already stored `old_dimensions` on the zone object before raising; the model
discards that partially mutated state together with the raised error. -/
def enlargeZone (g : Geometry) (v : Vehicle) (s0 : Shape) (z : Zone) :
    Except ProbErr (Option Zone) :=
  if z.old_dimensions.isSome then .ok none
  else
    let brake := marginOf v s0 z
    match z.shape with
    | .circle r =>
      .ok (some { z with
        old_dimensions := some [r]
        shape := .circle (r + brake) })
    | .rectangle w h _ =>
      if enlargeOption = 1 then
        -- option 1: uniform enlargement of all sides (dead code under option 2)
        .ok (some { z with
          old_dimensions := some [w, h]
          shape := .rectangle (w + 2 * brake) (h + 2 * brake)
            (g.getVertices (w + 2 * brake) (h + 2 * brake)) })
      else if enlargeOption = 2 then
        match v.trajectories with
        | none => .ok none
        | some traj =>
          match findIntersection g s0 z traj with
          | none => .ok none
          | some (i, p) =>
            match backWalk g traj brake i p 0 with
            | none => .error .infeasibleMargin
            | some (outer, _) =>
              let dists := g.distBetween outer z.position
              if dists.1 > w / 2 then
                -- x-direction binding; the height update below reads the
                -- width field after it has already been increased, exactly
                -- as the source does
                let w' := w + 2 * (dists.1 - w / 2)
                let h' := h + 2 * (dists.1 - w' / 2)
                .ok (some { z with
                  old_dimensions := some [w, h]
                  shape := .rectangle w' h' (g.getVertices w' h') })
              else if dists.2 > h / 2 then
                -- y-direction binding; both updates read the not-yet-updated
                -- height field, as in the source
                let w' := w + 2 * (dists.2 - vehSizeOf s0 - h / 2)
                let h' := h + 2 * (dists.2 - vehSizeOf s0 - h / 2)
                .ok (some { z with
                  old_dimensions := some [w, h]
                  shape := .rectangle w' h' (g.getVertices w' h') })
              else .error .corridorViolation
      else .error .invalidOption

/-- `Problem.enlarge_danger_zones`: select the danger zone closest to the
(first) vehicle's current position and enlarge it once by the computed
braking margin. -/
def enlargeDangerZones (g : Geometry) (st : ProblemState) :
    Except ProbErr ProblemState :=
  match st.danger_zones with
  | [] => .ok st
  | _ :: _ =>
    match st.vehicles with
    | [] => .error .indexError
    | v0 :: _ =>
      match v0.shapes with
      | [] => .error .indexError
      | s0 :: _ =>
        match closestZoneIdx g (vehPosOf v0) st.danger_zones with
        | none => .error .indexError
        | some i =>
          match st.danger_zones[i]? with
          | none => .error .indexError
          | some z =>
            match enlargeZone g v0 s0 z with
            | .error e => .error e
            | .ok none => .ok st
            | .ok (some z') => .ok { st with danger_zones := st.danger_zones.set i z' }

/-- The running bound accumulators of `update_vehicle_limits`; each starts as
the empty Python list (`none`) and holds a rational once assigned. -/
structure VelAcc where
  vxmin : Option ℚ
  vymin : Option ℚ
  vxmax : Option ℚ
  vymax : Option ℚ
  vmax : Option ℚ
deriving DecidableEq

/-- All accumulators start out as the empty list. -/
def emptyVelAcc : VelAcc := ⟨none, none, none, none, none⟩

/-- One accumulator step of the form `if not acc or z > acc: acc = z` (keep
the larger value).  Note the Python truthiness test: an accumulator holding
`0.0` is falsy, so it is overwritten unconditionally. -/
def updMax (a : Option ℚ) (z : ℚ) : Option ℚ :=
  match a with
  | none => some z
  | some x => if x = 0 then some z else if z > x then some z else some x

/-- One accumulator step of the form `if not acc or z < acc: acc = z` (keep
the smaller value), with the same truthiness caveat as `updMax`. -/
def updMin (a : Option ℚ) (z : ℚ) : Option ℚ :=
  match a with
  | none => some z
  | some x => if x = 0 then some z else if z < x then some z else some x

/-- The accumulator updates performed for one overlapping zone inside the
per-vehicle loop: per-axis mode keeps the larger lower bounds and the smaller
upper bounds; scalar mode keeps the smaller `vmax`. -/
def accUpdate (mode : String) (a : VelAcc) (zb : ZoneBounds) : VelAcc :=
  if mode = "norm_inf" then
    { a with
      vxmin := updMax a.vxmin zb.vxmin
      vymin := updMax a.vymin zb.vymin
      vxmax := updMin a.vxmax zb.vxmax
      vymax := updMin a.vymax zb.vymax }
  else
    { a with vmax := updMin a.vmax zb.vmax }

/-- The `vel_limits` list built from the accumulators right after they have
been assigned; every `getD` default is inert because each field read here has
just been set. -/
def velLimitsOf (mode : String) (a : VelAcc) : List ℚ :=
  if mode = "norm_inf" then [a.vxmin.getD 0, a.vymin.getD 0, a.vxmax.getD 0, a.vymax.getD 0]
  else [a.vmax.getD 0]

/-- Modelled from the spec: the vehicle collaborator's `set_velocities`
(declared but not defined under the sources in scope) stores the given bound
list as the vehicle's active velocity bounds. -/
def setVelocities (v : Vehicle) (l : List ℚ) : Vehicle :=
  { v with velocities := l }

/-- The restoration performed when no zone overlaps: rebuild the bound list
from the vehicle's own `original_bounds` (per-axis or scalar according to the
first vehicle's `syslimit` mode). -/
def restoreVehicle (mode : String) (v : Vehicle) : Vehicle :=
  setVelocities v
    (if mode = "norm_inf" then
      [v.original_bounds.vxmin, v.original_bounds.vymin,
       v.original_bounds.vxmax, v.original_bounds.vymax]
    else [v.original_bounds.vmax])

/-- Processing of one danger zone by `update_vehicle_limits`: if the vehicle
footprint overlaps the zone, run the per-vehicle loop (update accumulators,
then immediately apply the accumulated limits to the vehicle) and record that
a zone overlapped; otherwise leave the state untouched. -/
def dangerZoneStep (g : Geometry) (mode : String) (s0 : Shape) (p : Point)
    (s : VelAcc × List Vehicle × Bool) (zone : Zone) : VelAcc × List Vehicle × Bool :=
  if g.shapesOverlap s0 p zone.shape zone.position then
    let inner := s.2.1.foldl (fun (t : VelAcc × List Vehicle) veh =>
      (accUpdate mode t.1 zone.bounds,
       t.2 ++ [setVelocities veh (velLimitsOf mode (accUpdate mode t.1 zone.bounds))]))
      (s.1, [])
    (inner.1, inner.2, true)
  else s

/-- `Problem.update_vehicle_limits`: per tick, tighten every vehicle's bounds
to the most restrictive overlapping zone bounds, or restore every vehicle's
`original_bounds` when no zone overlaps.  With no danger zones the state is
untouched. -/
def updateVehicleLimits (g : Geometry) (st : ProblemState) :
    Except ProbErr ProblemState :=
  match st.danger_zones with
  | [] => .ok st
  | _ :: _ =>
    match st.vehicles with
    | [] => .error .indexError
    | v0 :: _ =>
      match v0.shapes with
      | [] => .error .indexError
      | s0 :: _ =>
        let p := vehPosOf v0
        let res := st.danger_zones.foldl (dangerZoneStep g v0.syslimit s0 p)
          (emptyVelAcc, st.vehicles, false)
        if res.2.2 then .ok { st with vehicles := res.2.1 }
        else .ok { st with vehicles := st.vehicles.map (restoreVehicle v0.syslimit) }

/-- The zones of a list whose footprint overlaps the vehicle footprint. -/
def overlapZones (g : Geometry) (s0 : Shape) (p : Point) (zones : List Zone) :
    List Zone :=
  zones.filter fun z => g.shapesOverlap s0 p z.shape z.position

/-- Least element of a nonempty rational list (0 for the empty list). -/
def minQ : List ℚ → ℚ
  | [] => 0
  | x :: xs => xs.foldl min x

/-- Greatest element of a nonempty rational list (0 for the empty list). -/
def maxQ : List ℚ → ℚ
  | [] => 0
  | x :: xs => xs.foldl max x

/-- The father's optimization-variable store, keyed by vehicle index and
segment index (`set_variables(..., child=vehicle, name='splines_seg'+l)`). -/
abbrev Blocks : Type := Nat → Nat → List (List ℚ)

/-- Overwrite the spline variable block of one vehicle segment. -/
def setBlock (b : Blocks) (k l : Nat) (v : List (List ℚ)) : Blocks :=
  fun k' l' => if k' = k ∧ l' = l then v else b k' l'

/-- The two validation errors of `reset_init_guess`: wrong segment count
(message: each spline segment of the vehicle should receive an initial
guess) and wrong per-segment column count (message: each vehicle spline
should receive an initial guess). -/
inductive GuessError where
  | segCount
  | splCount
deriving DecidableEq

/-- The argument of `reset_init_guess`: absent, a bare (non-list) guess, or a
list of per-segment arrays. -/
inductive InitGuessArg where
  | noneArg
  | bare (a : Arr2)
  | list (l : List Arr2)
deriving DecidableEq

/-- Default used for out-of-range guess reads; never reached on the paths the
source exercises because the segment index is bounded by the checked list
length. -/
def arrDefault : Arr2 := ⟨[], 0⟩

/-- Normalization of the `init_guess` argument: when absent, build the
default per-vehicle list from `get_init_spline_value()`; a bare non-list
value is wrapped into a length-1 list. -/
def guessListOf (vehicles : List Vehicle) : InitGuessArg → List Arr2
  | .noneArg => vehicles.map (·.init_spline_value)
  | .bare a => [a]
  | .list l => l

/-- The inner loop of `reset_init_guess` over the segments of vehicle `k`:
check each segment's column count against `n_spl` and overwrite the variable
block, stopping (with the partial writes kept) at the first mismatch. -/
def writeLoop (k : Nat) (nspl : Nat) (gl : List Arr2) :
    List Nat → Blocks → Blocks × Option GuessError
  | [], b => (b, none)
  | l :: ls, b =>
    if (gl.getD l arrDefault).cols ≠ nspl then (b, some .splCount)
    else writeLoop k nspl gl ls (setBlock b k l (gl.getD l arrDefault).data)

/-- The outer loop of `reset_init_guess` over the vehicles (vehicle index
`k`): check the guess's segment count against each vehicle's `n_seg`, then
run the segment loop, stopping at the first validation error. -/
def vehLoop (gl : List Arr2) : Nat → List Vehicle → Blocks → Blocks × Option GuessError
  | _, [], b => (b, none)
  | k, v :: rest, b =>
    if gl.length ≠ v.n_seg then (b, some .segCount)
    else
      match writeLoop k v.n_spl gl (List.range v.n_seg) b with
      | (b', none) => vehLoop gl (k + 1) rest b'
      | (b', some e) => (b', some e)

/-- `Problem.reset_init_guess`: normalize the argument, validate it against
every vehicle's declared segment and spline counts, and overwrite the
per-segment spline variable blocks. -/
def resetInitGuess (vehicles : List Vehicle) (b : Blocks) (arg : InitGuessArg) :
    Blocks × Option GuessError :=
  vehLoop (guessListOf vehicles arg) 0 vehicles b

/-- The solver-status handling at the end of `Problem.solve` (the
`stats['return_status']` inspection): the returned pair holds the new
variable-store state of the initial guess together with the messages printed.
`current_time` is the time already normalized by the start time, so the
very first tick is `current_time = 0`. -/
def solveStatusStep (vehicles : List Vehicle) (b : Blocks) (currentTime : ℚ)
    (status : String) : (Blocks × Option GuessError) × List String :=
  if status ≠ "Solve_Succeeded" then
    if status = "Maximum_CpuTime_Exceeded" then
      if currentTime ≠ 0 then
        (resetInitGuess vehicles b .noneArg,
         ["Maximum solving time exceeded, resetting initial guess", status])
      else ((b, none), [])
    else ((b, none), [status])
  else ((b, none), [])

/-- The dimension list of a shape, in the format stored in
`old_dimensions`: `[radius]` for a circle, `[width, height]` for a
rectangle. -/
def dimsList : Shape → List ℚ
  | .circle r => [r]
  | .rectangle w h _ => [w, h]

/-- Pointwise comparison of shape dimensions. -/
def dimsLe (s t : Shape) : Prop :=
  List.Forall₂ (· ≤ ·) (dimsList s) (dimsList t)

/-! Concrete scenarios and shared helper lemmas. -/

/-- The circular vehicle of the scalar braking-distance scenario: radius 0.2,
`vmax = 2.0`, `amax = 1.0`, scalar (`norm_2`) bound mode, no recorded signal
history (initial prediction `p`).  The remaining fields are irrelevant to the
scenario. -/
def c1Vehicle (p : Point) : Vehicle :=
  { signals := none
    prediction := p
    shapes := [.circle (1/5)]
    syslimit := "norm_2"
    vmax := 2
    vxmax := 0
    vymax := 0
    amax := 1
    axmax := 0
    original_bounds := ⟨2, 0, 0, 0, 0⟩
    velocities := []
    trajectories := none
    n_seg := 1
    n_spl := 1
    init_spline_value := ⟨[], 0⟩ }

/-- A circular danger zone of radius `r0` at position `q` with reduced bound
`vmax = 0.5`, not yet enlarged. -/
def c1Zone (q : Point) (r0 : ℚ) : Zone :=
  { shape := .circle r0
    position := q
    bounds := ⟨1/2, 0, 0, 0, 0⟩
    old_dimensions := none }

/-- A concrete geometry with unit point distances, used to exercise the
backward-walk characterization. -/
def c9Geom : Geometry :=
  { dist := fun _ _ => 1
    distBetween := fun _ _ => (0, 0)
    circlePolyIntersect := fun _ _ _ _ => false
    shapesOverlap := fun _ _ _ _ => false
    getVertices := fun _ _ => [] }

/-- A vehicle value used only as an inert `getD` default. -/
def vehDefault : Vehicle :=
  { signals := none
    prediction := (0, 0)
    shapes := []
    syslimit := ""
    vmax := 0
    vxmax := 0
    vymax := 0
    amax := 0
    axmax := 0
    original_bounds := ⟨0, 0, 0, 0, 0⟩
    velocities := []
    trajectories := none
    n_seg := 0
    n_spl := 0
    init_spline_value := ⟨[], 0⟩ }

/-- Accumulator state after the zone-level accumulation over a list of
(overlapping) zones. -/
def accFold (mode : String) (a : VelAcc) (ov : List Zone) : VelAcc :=
  ov.foldl (fun acc z => accUpdate mode acc z.bounds) a

/-- A geometry whose overlap test always succeeds, so every zone counts as
overlapping the vehicle footprint. -/
def c6Geom : Geometry :=
  { dist := fun _ _ => 0
    distBetween := fun _ _ => (0, 0)
    circlePolyIntersect := fun _ _ _ _ => false
    shapesOverlap := fun _ _ _ _ => true
    getVertices := fun _ _ => [] }

/-- An overlapping danger zone whose reduced scalar bound is exactly 0. -/
def c6ZoneA : Zone :=
  { shape := .circle 1
    position := (0, 0)
    bounds := ⟨0, 0, 0, 0, 0⟩
    old_dimensions := none }

/-- An overlapping danger zone whose reduced scalar bound is 1. -/
def c6ZoneB : Zone :=
  { shape := .circle 1
    position := (0, 0)
    bounds := ⟨1, 0, 0, 0, 0⟩
    old_dimensions := none }

/-- An overlapping danger zone with nonzero reduced scalar bound 3. -/
def c6ZoneC : Zone :=
  { shape := .circle 1
    position := (0, 0)
    bounds := ⟨3, 0, 0, 0, 0⟩
    old_dimensions := none }

/-- An overlapping danger zone with nonzero reduced scalar bound 2. -/
def c6ZoneD : Zone :=
  { shape := .circle 1
    position := (0, 0)
    bounds := ⟨2, 0, 0, 0, 0⟩
    old_dimensions := none }

/-- A circular danger zone already carrying the `old_dimensions` marker. -/
def c2Zone : Zone :=
  { shape := .circle 1
    position := (0, 0)
    bounds := ⟨1, 0, 0, 0, 0⟩
    old_dimensions := some [1] }

/-- A scalar-mode circular vehicle with `vmax = 1`, `amax = 1`, radius 0.2. -/
def c3Vehicle : Vehicle :=
  { signals := none
    prediction := (0, 0)
    shapes := [.circle (1/5)]
    syslimit := "norm_2"
    vmax := 1
    vxmax := 0
    vymax := 0
    amax := 1
    axmax := 0
    original_bounds := ⟨1, 0, 0, 0, 0⟩
    velocities := []
    trajectories := none
    n_seg := 1
    n_spl := 1
    init_spline_value := ⟨[], 0⟩ }

/-- A circular danger zone of radius 1 whose "reduced" bound `vmax = 4`
exceeds the vehicle's `vmax = 1`. -/
def c3Zone : Zone :=
  { shape := .circle 1
    position := (0, 0)
    bounds := ⟨4, 0, 0, 0, 0⟩
    old_dimensions := none }

/-- The enlarged zone of the C1 scenario with initial radius 1. -/
def c3WZone : Zone :=
  { c1Zone (0, 0) 1 with
    shape := .circle (1 + 83/40)
    old_dimensions := some [1] }

/-- Geometry for the rectangle x-branch scenario: constant point distance 4,
per-axis absolute distances, and an intersection test that fires exactly at
the trajectory point (1, 0). -/
def c4Geom : Geometry :=
  { dist := fun _ _ => 4
    distBetween := fun p q => (|p.1 - q.1|, |p.2 - q.2|)
    circlePolyIntersect := fun _ pos _ _ => decide (pos = ((1 : ℚ), (0 : ℚ)))
    shapesOverlap := fun _ _ _ _ => false
    getVertices := fun _ _ => [] }

/-- The C1 vehicle with a stored trajectory walking from (5,0) into the
zone at (1,0). -/
def c4Vehicle : Vehicle :=
  { c1Vehicle (0, 0) with trajectories := some [(5, 0), (1, 0)] }

/-- A square 2-by-2 danger zone at the origin, not yet enlarged. -/
def c4Zone : Zone :=
  { shape := .rectangle 2 2 []
    position := (0, 0)
    bounds := ⟨1/2, 0, 0, 0, 0⟩
    old_dimensions := none }

/-- A 2-by-2 rectangular danger zone at the origin, not yet enlarged. -/
def c10Zone : Zone :=
  { shape := .rectangle 2 2 []
    position := (0, 0)
    bounds := ⟨1, 0, 0, 0, 0⟩
    old_dimensions := none }

/-- C1: in scalar (`norm_2`) bound mode, for a circular vehicle with
`vmax = 2.0`, `amax = 1.0` and radius 0.2 and a nearest not-yet-enlarged
circular danger zone with `vmax = 0.5`, `enlarge_danger_zones` computes
`vel_difference = 1.5`, `t_slow_down = 1.5`, `brake_dist = 1.875`, and
increases the zone's radius by exactly 2.075 (braking distance plus vehicle
radius), for any external geometry, any positions and any initial radius. -/
theorem c1_scalar_circle_enlargement (g : Geometry) (p q : Point) (r0 : ℚ) :
    velDifferenceOf (c1Vehicle p) (c1Zone q r0) = 3 / 2 ∧
    tSlowDownOf (c1Vehicle p) (c1Zone q r0) = 3 / 2 ∧
    brakeDistOf (c1Vehicle p) (c1Zone q r0) = 15 / 8 ∧
    marginOf (c1Vehicle p) (Shape.circle (1/5)) (c1Zone q r0) = 83 / 40 ∧
    enlargeDangerZones g ⟨[c1Vehicle p], [c1Zone q r0]⟩ =
      .ok ⟨[c1Vehicle p], [{ c1Zone q r0 with shape := .circle (r0 + 83 / 40), old_dimensions := some [r0] }]⟩ := by
  have habs : |(3 : ℚ) / 2| = 3 / 2 := by
    rw [abs_of_nonneg] ; norm_num
  have hv : velDifferenceOf (c1Vehicle p) (c1Zone q r0) = 3 / 2 := by
    norm_num [velDifferenceOf, c1Vehicle, c1Zone]
  have ht : tSlowDownOf (c1Vehicle p) (c1Zone q r0) = 3 / 2 := by
    norm_num [tSlowDownOf, velDifferenceOf, c1Vehicle, c1Zone, habs]
  have hb : brakeDistOf (c1Vehicle p) (c1Zone q r0) = 15 / 8 := by
    norm_num [brakeDistOf, tSlowDownOf, velDifferenceOf, c1Vehicle, c1Zone, habs]
  have hm : marginOf (c1Vehicle p) (Shape.circle (1/5)) (c1Zone q r0) = 83 / 40 := by
    norm_num [marginOf, hb, vehSizeOf]
  refine ⟨hv, ht, hb, hm, ?_⟩
  simp [enlargeDangerZones, closestZoneIdx, argminIdx, vehPosOf, enlargeZone, c1Vehicle,
    c1Zone, enlargeOption]
  norm_num [marginOf, brakeDistOf, tSlowDownOf, velDifferenceOf, vehSizeOf, c1Vehicle, c1Zone, habs]

/-- With a nonnegative distance function, backward path lengths are
nonnegative. -/
theorem pathLenBack_nonneg (g : Geometry) (traj : List Point)
    (H : ∀ p q : Point, 0 ≤ g.dist p q) :
    ∀ (i : Nat) (curr : Point), 0 ≤ pathLenBack g traj i curr := by
  intro i
  induction i with
  | zero => intro curr; simp [pathLenBack]
  | succ n ih =>
    intro curr
    simp only [pathLenBack]
    exact add_nonneg (H _ _) (ih _)

/-- The backward walk fails exactly when the remaining backward path length
cannot make up the missing distance. -/
theorem backWalk_none_iff (g : Geometry) (traj : List Point) (brake : ℚ)
    (H : ∀ p q : Point, 0 ≤ g.dist p q) :
    ∀ (i : Nat) (curr : Point) (d : ℚ),
      backWalk g traj brake i curr d = none ↔ d + pathLenBack g traj i curr < brake := by
  intro i
  induction i with
  | zero =>
    intro curr d
    by_cases h : brake ≤ d
    · simp [backWalk, h, pathLenBack]
    · simp [backWalk, h, pathLenBack]
      exact not_le.mp h
  | succ n ih =>
    intro curr d
    by_cases h : brake ≤ d
    · have hL : backWalk g traj brake (n + 1) curr d = some (curr, d) := by
        simp [backWalk, h]
      rw [hL]
      simp only [pathLenBack]
      constructor
      · intro hc; cases hc
      · intro hc
        exfalso
        have h1 := H curr (traj.getD n (0, 0))
        have h2 := pathLenBack_nonneg g traj H n (traj.getD n (0, 0))
        linarith
    · simp only [backWalk, if_neg h]
      rw [ih]
      simp only [pathLenBack]
      constructor <;> intro hc <;> linarith

/-- When the backward walk returns an outer point, its accumulated distance
has reached the braking distance. -/
theorem backWalk_some_ge (g : Geometry) (traj : List Point) (brake : ℚ) :
    ∀ (i : Nat) (curr : Point) (d : ℚ) (q : Point) (dd : ℚ),
      backWalk g traj brake i curr d = some (q, dd) → brake ≤ dd := by
  intro i
  induction i with
  | zero =>
    intro curr d q dd h
    by_cases hb : brake ≤ d
    · simp only [backWalk, if_pos hb, Option.some.injEq, Prod.mk.injEq] at h
      exact h.2 ▸ hb
    · simp only [backWalk, if_neg hb] at h
      cases h
  | succ n ih =>
    intro curr d q dd h
    by_cases hb : brake ≤ d
    · simp only [backWalk, if_pos hb, Option.some.injEq, Prod.mk.injEq] at h
      exact h.2 ▸ hb
    · simp only [backWalk, if_neg hb] at h
      exact ih _ _ _ _ h

/-- C9: the backward walk of the trajectory-aware rectangle enlargement,
started at the first intersecting trajectory column `i`, raises its fatal
error exactly when the accumulated backward path length down to column 0
stays below the required braking distance, and otherwise it stops at an outer
point whose accumulated backward path length is at least the braking
distance (for any nonnegative distance function, as the Euclidean one is). -/
theorem c9_backwalk_characterization (g : Geometry) (traj : List Point) (brake : ℚ)
    (H : ∀ p q : Point, 0 ≤ g.dist p q) (i : Nat) (p : Point) :
    (backWalk g traj brake i p 0 = none ↔ pathLenBack g traj i p < brake) ∧
    (∀ q d, backWalk g traj brake i p 0 = some (q, d) → brake ≤ d) := by
  constructor
  · have h := backWalk_none_iff g traj brake H i p 0
    simpa using h
  · intro q d h
    exact backWalk_some_ge g traj brake i p 0 q d h

/-- Closed instance of the backward-walk characterization at a concrete
trajectory and braking distance. -/
theorem c9_backwalk_characterization_witness :
    backWalk c9Geom [(0, 0), (0, 0), (0, 0)] 5 2 (0, 0) 0 = none ↔
      pathLenBack c9Geom [(0, 0), (0, 0), (0, 0)] 2 (0, 0) < 5 :=
  (c9_backwalk_characterization c9Geom [(0, 0), (0, 0), (0, 0)] 5
    (fun _ _ => by norm_num [c9Geom]) 2 (0, 0)).1

/-- The segment loop of `reset_init_guess` succeeds exactly when every
visited segment's column count matches the vehicle's spline count. -/
theorem writeLoop_none_iff (k nspl : Nat) (gl : List Arr2) :
    ∀ (ls : List Nat) (b : Blocks),
      (writeLoop k nspl gl ls b).2 = none ↔
        ∀ l ∈ ls, (gl.getD l arrDefault).cols = nspl := by
  intro ls
  induction ls with
  | nil => intro b; simp [writeLoop]
  | cons l ls ih =>
    intro b
    by_cases hc : (gl.getD l arrDefault).cols = nspl
    · simp only [writeLoop]
      rw [if_neg (not_not_intro hc)]
      rw [ih]
      constructor
      · intro hrest x hx
        rcases List.mem_cons.mp hx with rfl | hx2
        · exact hc
        · exact hrest x hx2
      · intro hall x hx
        exact hall x (List.mem_cons_of_mem _ hx)
    · simp only [writeLoop]
      rw [if_pos hc]
      simp only [List.mem_cons]
      constructor
      · intro hco; exact Option.noConfusion hco
      · intro hall; exact absurd (hall l (Or.inl rfl)) hc

/-- The segment loop can only fail with the per-spline validation error. -/
theorem writeLoop_err_kind (k nspl : Nat) (gl : List Arr2) :
    ∀ (ls : List Nat) (b : Blocks),
      (writeLoop k nspl gl ls b).2 = none ∨
        (writeLoop k nspl gl ls b).2 = some .splCount := by
  intro ls
  induction ls with
  | nil => intro b; simp [writeLoop]
  | cons l ls ih =>
    intro b
    by_cases hc : (gl.getD l arrDefault).cols = nspl
    · simp only [writeLoop]
      rw [if_neg (not_not_intro hc)]
      exact ih _
    · simp only [writeLoop]
      rw [if_pos hc]
      exact Or.inr rfl

/-- The segment loop touches only the blocks of its own vehicle index and of
the visited segments. -/
theorem writeLoop_preserve (k nspl : Nat) (gl : List Arr2) :
    ∀ (ls : List Nat) (b : Blocks) (k' l' : Nat), (k' ≠ k ∨ l' ∉ ls) →
      (writeLoop k nspl gl ls b).1 k' l' = b k' l' := by
  intro ls
  induction ls with
  | nil => intro b k' l' _; simp [writeLoop]
  | cons l ls ih =>
    intro b k' l' hkl
    by_cases hc : (gl.getD l arrDefault).cols = nspl
    · simp only [writeLoop]
      rw [if_neg (not_not_intro hc)]
      have h1 : (k' ≠ k ∨ l' ∉ ls) := by
        rcases hkl with h | h
        · exact Or.inl h
        · exact Or.inr fun hm => h (List.mem_cons_of_mem _ hm)
      rw [ih _ _ _ h1]
      have h2 : ¬(k' = k ∧ l' = l) := by
        rintro ⟨rfl, rfl⟩
        rcases hkl with h | h
        · exact h rfl
        · exact h (List.mem_cons_self _ _)
      simp [setBlock, h2]
    · simp only [writeLoop]
      rw [if_pos hc]

/-- A block changed by the segment loop belongs to this vehicle, to a visited
segment, and to a segment whose column check passed. -/
theorem writeLoop_changed (k nspl : Nat) (gl : List Arr2) :
    ∀ (ls : List Nat) (b : Blocks) (k' l' : Nat),
      (writeLoop k nspl gl ls b).1 k' l' ≠ b k' l' →
      k' = k ∧ l' ∈ ls ∧ (gl.getD l' arrDefault).cols = nspl := by
  intro ls
  induction ls with
  | nil => intro b k' l' h; simp [writeLoop] at h
  | cons l ls ih =>
    intro b k' l' h
    by_cases hc : (gl.getD l arrDefault).cols = nspl
    · simp only [writeLoop] at h
      rw [if_neg (not_not_intro hc)] at h
      by_cases h2 : (writeLoop k nspl gl ls (setBlock b k l (gl.getD l arrDefault).data)).1 k' l'
          = setBlock b k l (gl.getD l arrDefault).data k' l'
      · rw [h2] at h
        by_cases h3 : k' = k ∧ l' = l
        · exact ⟨h3.1, by simp [h3.2], h3.2 ▸ hc⟩
        · simp [setBlock, h3] at h
      · obtain ⟨hk, hl, hcols⟩ := ih _ _ _ h2
        exact ⟨hk, List.mem_cons_of_mem _ hl, hcols⟩
    · simp only [writeLoop] at h
      rw [if_pos hc] at h
      exact absurd rfl h

/-- The segment loop processes an appended index list in two stages. -/
theorem writeLoop_append (k nspl : Nat) (gl : List Arr2) :
    ∀ (l₁ l₂ : List Nat) (b : Blocks),
      writeLoop k nspl gl (l₁ ++ l₂) b =
        match writeLoop k nspl gl l₁ b with
        | (b', none) => writeLoop k nspl gl l₂ b'
        | (b', some e) => (b', some e) := by
  intro l₁
  induction l₁ with
  | nil => intro l₂ b; simp [writeLoop]
  | cons x xs ih =>
    intro l₂ b
    by_cases hx : (gl.getD x arrDefault).cols = nspl
    · simp only [List.cons_append, writeLoop]
      rw [if_neg (not_not_intro hx), if_neg (not_not_intro hx)]
      exact ih _ _
    · simp only [List.cons_append, writeLoop]
      rw [if_pos hx, if_pos hx]

/-- On a fully valid segment range the segment loop stores every segment's
coefficient data. -/
theorem writeLoop_write (k nspl : Nat) (gl : List Arr2) :
    ∀ (n : Nat) (b : Blocks),
      (∀ l ∈ List.range n, (gl.getD l arrDefault).cols = nspl) →
      ∀ l, l < n →
        (writeLoop k nspl gl (List.range n) b).1 k l = (gl.getD l arrDefault).data := by
  intro n
  induction n with
  | zero => intro b _ l hl; cases hl
  | succ m ih =>
    intro b hall l hl
    have hallm : ∀ x ∈ List.range m, (gl.getD x arrDefault).cols = nspl := by
      intro x hx
      exact hall x (List.mem_range.mpr (Nat.lt_succ_of_lt (List.mem_range.mp hx)))
    have hm : (gl.getD m arrDefault).cols = nspl :=
      hall m (List.mem_range.mpr (Nat.lt_succ_self m))
    rw [List.range_succ, writeLoop_append]
    rcases hb1 : writeLoop k nspl gl (List.range m) b with ⟨b1, e1⟩
    have he : e1 = none := by
      have hnone : (writeLoop k nspl gl (List.range m) b).2 = none :=
        (writeLoop_none_iff k nspl gl (List.range m) b).mpr hallm
      rw [hb1] at hnone
      exact hnone
    subst he
    simp only [writeLoop]
    rw [if_neg (not_not_intro hm)]
    rcases Nat.lt_succ_iff_lt_or_eq.mp hl with hlt | rfl
    · have hne : l ≠ m := Nat.ne_of_lt hlt
      have hihs := ih b hallm l hlt
      rw [hb1] at hihs
      simpa [setBlock, hne] using hihs
    · simp [setBlock]

/-- The vehicle loop of `reset_init_guess` succeeds exactly when every
vehicle passes both the segment-count and all per-segment column checks. -/
theorem vehLoop_none_iff (gl : List Arr2) :
    ∀ (vs : List Vehicle) (k : Nat) (b : Blocks),
      (vehLoop gl k vs b).2 = none ↔
        ∀ v ∈ vs, gl.length = v.n_seg ∧
          ∀ l ∈ List.range v.n_seg, (gl.getD l arrDefault).cols = v.n_spl := by
  intro vs
  induction vs with
  | nil => intro k b; simp [vehLoop]
  | cons v rest ih =>
    intro k b
    by_cases hlen : gl.length = v.n_seg
    · simp only [vehLoop]
      rw [if_neg (not_not_intro hlen)]
      rcases hw : writeLoop k v.n_spl gl (List.range v.n_seg) b with ⟨b1, e1⟩
      cases e1 with
      | none =>
        have hcols : ∀ l ∈ List.range v.n_seg, (gl.getD l arrDefault).cols = v.n_spl := by
          have h2 : (writeLoop k v.n_spl gl (List.range v.n_seg) b).2 = none := by rw [hw]
          exact (writeLoop_none_iff _ _ _ _ _).mp h2
        show (vehLoop gl (k + 1) rest b1).2 = none ↔ _
        rw [ih]
        constructor
        · intro hrest x hx
          rcases List.mem_cons.mp hx with rfl | hx2
          · exact ⟨hlen, hcols⟩
          · exact hrest x hx2
        · intro hall x hx
          exact hall x (List.mem_cons_of_mem _ hx)
      | some e =>
        have hbad : ¬∀ l ∈ List.range v.n_seg, (gl.getD l arrDefault).cols = v.n_spl := by
          intro hallc
          have h2 : (writeLoop k v.n_spl gl (List.range v.n_seg) b).2 = none :=
            (writeLoop_none_iff _ _ _ _ _).mpr hallc
          rw [hw] at h2
          exact Option.noConfusion h2
        constructor
        · intro hco; exact Option.noConfusion hco
        · intro hall; exact absurd (hall v (List.mem_cons_self _ _)).2 hbad
    · simp only [vehLoop]
      rw [if_pos hlen]
      constructor
      · intro hco; exact Option.noConfusion hco
      · intro hall; exact absurd (hall v (List.mem_cons_self _ _)).1 hlen

/-- The vehicle loop never writes blocks of vehicle indices below its
counter. -/
theorem vehLoop_preserve (gl : List Arr2) :
    ∀ (vs : List Vehicle) (k : Nat) (b : Blocks) (k' l' : Nat), k' < k →
      (vehLoop gl k vs b).1 k' l' = b k' l' := by
  intro vs
  induction vs with
  | nil => intro k b k' l' _; simp [vehLoop]
  | cons v rest ih =>
    intro k b k' l' hk
    by_cases hlen : gl.length = v.n_seg
    · simp only [vehLoop]
      rw [if_neg (not_not_intro hlen)]
      rcases hw : writeLoop k v.n_spl gl (List.range v.n_seg) b with ⟨b1, e1⟩
      have hb1 : b1 k' l' = b k' l' := by
        have hp := writeLoop_preserve k v.n_spl gl (List.range v.n_seg) b k' l'
          (Or.inl (Nat.ne_of_lt hk))
        rw [hw] at hp
        exact hp
      cases e1 with
      | none =>
        show (vehLoop gl (k + 1) rest b1).1 k' l' = _
        rw [ih (k + 1) b1 k' l' (Nat.lt_succ_of_lt hk)]
        exact hb1
      | some e =>
        exact hb1
    · simp only [vehLoop]
      rw [if_pos hlen]

/-- On success the vehicle loop stores, for every vehicle and every declared
segment, the corresponding guess data. -/
theorem vehLoop_write (gl : List Arr2) :
    ∀ (vs : List Vehicle) (k : Nat) (b : Blocks), (vehLoop gl k vs b).2 = none →
      ∀ j, j < vs.length → ∀ l, l < (vs.getD j vehDefault).n_seg →
        (vehLoop gl k vs b).1 (k + j) l = (gl.getD l arrDefault).data := by
  intro vs
  induction vs with
  | nil => intro k b _ j hj; cases hj
  | cons v rest ih =>
    intro k b hnone j hj l hl
    by_cases hlen : gl.length = v.n_seg
    · simp only [vehLoop] at hnone ⊢
      rw [if_neg (not_not_intro hlen)] at hnone ⊢
      rcases hw : writeLoop k v.n_spl gl (List.range v.n_seg) b with ⟨b1, e1⟩
      rw [hw] at hnone
      cases e1 with
      | some e => exact Option.noConfusion hnone
      | none =>
        have hnone2 : (vehLoop gl (k + 1) rest b1).2 = none := hnone
        cases j with
        | zero =>
          have hl0 : l < v.n_seg := by simpa using hl
          have hcols : ∀ x ∈ List.range v.n_seg, (gl.getD x arrDefault).cols = v.n_spl := by
            have h2 : (writeLoop k v.n_spl gl (List.range v.n_seg) b).2 = none := by rw [hw]
            exact (writeLoop_none_iff _ _ _ _ _).mp h2
          have hwr : b1 k l = (gl.getD l arrDefault).data := by
            have hW := writeLoop_write k v.n_spl gl v.n_seg b hcols l hl0
            rw [hw] at hW
            exact hW
          have hpres := vehLoop_preserve gl rest (k + 1) b1 k l (Nat.lt_succ_self k)
          show (vehLoop gl (k + 1) rest b1).1 (k + 0) l = _
          simpa using hpres.trans hwr
        | succ jj =>
          have hj2 : jj < rest.length := by simpa using hj
          have hl2 : l < (rest.getD jj vehDefault).n_seg := by
            simpa [List.getD_cons_succ] using hl
          have hres := ih (k + 1) b1 hnone2 jj hj2 l hl2
          show (vehLoop gl (k + 1) rest b1).1 (k + (jj + 1)) l = _
          rw [show k + (jj + 1) = (k + 1) + jj by omega]
          exact hres
    · simp only [vehLoop] at hnone
      rw [if_pos hlen] at hnone
      exact Option.noConfusion hnone

/-- Any block changed by the vehicle loop belongs to a processed vehicle that
passed its segment-count check, and to a segment index below that vehicle's
segment count whose column check passed. -/
theorem vehLoop_changed (gl : List Arr2) :
    ∀ (vs : List Vehicle) (k : Nat) (b : Blocks) (k' l' : Nat),
      (vehLoop gl k vs b).1 k' l' ≠ b k' l' →
      ∃ j, j < vs.length ∧ k' = k + j ∧
        gl.length = (vs.getD j vehDefault).n_seg ∧
        l' < (vs.getD j vehDefault).n_seg ∧
        (gl.getD l' arrDefault).cols = (vs.getD j vehDefault).n_spl := by
  intro vs
  induction vs with
  | nil => intro k b k' l' h; simp [vehLoop] at h
  | cons v rest ih =>
    intro k b k' l' h
    by_cases hlen : gl.length = v.n_seg
    · simp only [vehLoop] at h
      rw [if_neg (not_not_intro hlen)] at h
      rcases hw : writeLoop k v.n_spl gl (List.range v.n_seg) b with ⟨b1, e1⟩
      rw [hw] at h
      cases e1 with
      | some e =>
        have hb : b1 k' l' ≠ b k' l' := h
        have hch := writeLoop_changed k v.n_spl gl (List.range v.n_seg) b k' l'
        rw [hw] at hch
        obtain ⟨rfl, hml, hcols⟩ := hch hb
        exact ⟨0, by simp, by omega, by simpa using hlen,
          by simpa [List.mem_range] using hml, by simpa using hcols⟩
      | none =>
        have h0 : (vehLoop gl (k + 1) rest b1).1 k' l' ≠ b k' l' := h
        by_cases h2 : (vehLoop gl (k + 1) rest b1).1 k' l' = b1 k' l'
        · have hb : b1 k' l' ≠ b k' l' := by rw [h2] at h0; exact h0
          have hch := writeLoop_changed k v.n_spl gl (List.range v.n_seg) b k' l'
          rw [hw] at hch
          obtain ⟨rfl, hml, hcols⟩ := hch hb
          exact ⟨0, by simp, by omega, by simpa using hlen,
            by simpa [List.mem_range] using hml, by simpa using hcols⟩
        · obtain ⟨j, hj, hk2, hlen2, hl2, hcols2⟩ := ih (k + 1) b1 k' l' h2
          refine ⟨j + 1, by simpa using hj, by omega, ?_, ?_, ?_⟩
          · simpa [List.getD_cons_succ] using hlen2
          · simpa [List.getD_cons_succ] using hl2
          · simpa [List.getD_cons_succ] using hcols2
    · simp only [vehLoop] at h
      rw [if_pos hlen] at h
      exact absurd rfl h

/-- C8: `reset_init_guess` with a supplied guess raises the segment-count
validation error when the guess's segment count differs from a vehicle's
`n_seg`, raises the spline-count validation error when a segment's column
count differs from the vehicle's `n_spl`, and writes a vehicle segment's
spline variable block only after both checks pass (writing all blocks when
everything passes); a bare non-list guess is first wrapped into a length-1
list. -/
theorem c8_reset_init_guess_validation (vs : List Vehicle) (b : Blocks)
    (g : List Arr2) (a : Arr2) :
    (resetInitGuess vs b (.bare a) = resetInitGuess vs b (.list [a])) ∧
    ((resetInitGuess vs b (.list g)).2 = none ↔
      ∀ v ∈ vs, g.length = v.n_seg ∧
        ∀ l ∈ List.range v.n_seg, (g.getD l arrDefault).cols = v.n_spl) ∧
    ((resetInitGuess vs b (.list g)).2 = none →
      ∀ j, j < vs.length → ∀ l, l < (vs.getD j vehDefault).n_seg →
        (resetInitGuess vs b (.list g)).1 j l = (g.getD l arrDefault).data) ∧
    (∀ v rest, vs = v :: rest → g.length ≠ v.n_seg →
      (resetInitGuess vs b (.list g)).2 = some .segCount) ∧
    (∀ v rest, vs = v :: rest → g.length = v.n_seg →
      (∃ l, l < v.n_seg ∧ (g.getD l arrDefault).cols ≠ v.n_spl) →
      (resetInitGuess vs b (.list g)).2 = some .splCount) ∧
    (∀ k l, (resetInitGuess vs b (.list g)).1 k l ≠ b k l →
      k < vs.length ∧ g.length = (vs.getD k vehDefault).n_seg ∧
      l < (vs.getD k vehDefault).n_seg ∧
      (g.getD l arrDefault).cols = (vs.getD k vehDefault).n_spl) := by
  refine ⟨rfl, ?_, ?_, ?_, ?_, ?_⟩
  · exact vehLoop_none_iff g vs 0 b
  · intro h j hj l hl
    have hres := vehLoop_write g vs 0 b h j hj l hl
    simpa using hres
  · intro v rest hvs hlen
    subst hvs
    show (vehLoop g 0 (v :: rest) b).2 = some .segCount
    simp only [vehLoop]
    rw [if_pos hlen]
  · rintro v rest hvs hlen ⟨l, hl, hc⟩
    subst hvs
    show (vehLoop g 0 (v :: rest) b).2 = some .splCount
    simp only [vehLoop]
    rw [if_neg (not_not_intro hlen)]
    rcases hw : writeLoop 0 v.n_spl g (List.range v.n_seg) b with ⟨b1, e1⟩
    have hsome : e1 = some .splCount := by
      have hne : (writeLoop 0 v.n_spl g (List.range v.n_seg) b).2 ≠ none := by
        intro h0
        have hall := (writeLoop_none_iff 0 v.n_spl g (List.range v.n_seg) b).mp h0
        exact hc (hall l (List.mem_range.mpr hl))
      rcases writeLoop_err_kind 0 v.n_spl g (List.range v.n_seg) b with h1 | h1
      · exact absurd h1 hne
      · rw [hw] at h1
        exact h1
    subst hsome
    rfl
  · intro k l h
    obtain ⟨j, hj, hk, hlen, hl, hcols⟩ := vehLoop_changed g vs 0 b k l h
    have hkj : k = j := by omega
    subst hkj
    exact ⟨hj, hlen, hl, hcols⟩

/-- Closed instance of the segment-count validation error: a single vehicle
declaring one segment rejects an empty guess list. -/
theorem c8_reset_init_guess_validation_witness :
    (resetInitGuess [c1Vehicle (0, 0)] (fun _ _ => []) (.list [])).2 =
      some .segCount :=
  (c8_reset_init_guess_validation [c1Vehicle (0, 0)] (fun _ _ => []) [] ⟨[], 0⟩).2.2.2.1
    (c1Vehicle (0, 0)) [] rfl (by decide)

/-- C7: the solver-status handling of `solve`.  On status
Maximum_CpuTime_Exceeded at a tick other than the very first one the initial
guess is reset to the freshly rebuilt per-vehicle default (the result of
`reset_init_guess` with no argument) and the condition is reported; on the
very first tick the timeout is ignored; any other non-success status is only
reported, with no state change and no abort. -/
theorem c7_solve_status_handling (vehicles : List Vehicle) (b : Blocks) (t : ℚ)
    (ht : t ≠ 0) :
    (solveStatusStep vehicles b t "Maximum_CpuTime_Exceeded" =
      (resetInitGuess vehicles b .noneArg,
       ["Maximum solving time exceeded, resetting initial guess",
        "Maximum_CpuTime_Exceeded"])) ∧
    (solveStatusStep vehicles b 0 "Maximum_CpuTime_Exceeded" = ((b, none), [])) ∧
    (∀ s, s ≠ "Solve_Succeeded" → s ≠ "Maximum_CpuTime_Exceeded" →
      solveStatusStep vehicles b t s = ((b, none), [s])) ∧
    (solveStatusStep vehicles b t "Solve_Succeeded" = ((b, none), [])) := by
  refine ⟨?_, ?_, ?_, ?_⟩
  · simp [solveStatusStep, ht]
  · simp [solveStatusStep]
  · intro s hs1 hs2
    simp [solveStatusStep, hs1, hs2]
  · simp [solveStatusStep]

/-- Closed instance of the solver-status handling at tick time 1. -/
theorem c7_solve_status_handling_witness :
    solveStatusStep [] (fun _ _ => []) 1 "Maximum_CpuTime_Exceeded" =
      (resetInitGuess [] (fun _ _ => []) .noneArg,
       ["Maximum solving time exceeded, resetting initial guess",
        "Maximum_CpuTime_Exceeded"]) :=
  (c7_solve_status_handling [] (fun _ _ => []) 1 (by norm_num)).1

/-- The truthiness-aware larger-bound accumulator step is idempotent. -/
theorem updMax_idem (a : Option ℚ) (z : ℚ) : updMax (updMax a z) z = updMax a z := by
  have hz : updMax (some z) z = some z := by
    by_cases h : z = 0
    · simp [updMax, h]
    · simp [updMax, h]
  cases a with
  | none => simp only [updMax]; exact hz
  | some x =>
    by_cases hx : x = 0
    · have h1 : updMax (some x) z = some z := by simp [updMax, hx]
      rw [h1, hz]
    · by_cases hzx : z > x
      · have h1 : updMax (some x) z = some z := by simp [updMax, hx, hzx]
        rw [h1, hz]
      · have h1 : updMax (some x) z = some x := by simp [updMax, hx, hzx]
        rw [h1]
        exact h1

/-- The truthiness-aware smaller-bound accumulator step is idempotent. -/
theorem updMin_idem (a : Option ℚ) (z : ℚ) : updMin (updMin a z) z = updMin a z := by
  have hz : updMin (some z) z = some z := by
    by_cases h : z = 0
    · simp [updMin, h]
    · simp [updMin, h]
  cases a with
  | none => simp only [updMin]; exact hz
  | some x =>
    by_cases hx : x = 0
    · have h1 : updMin (some x) z = some z := by simp [updMin, hx]
      rw [h1, hz]
    · by_cases hzx : z < x
      · have h1 : updMin (some x) z = some z := by simp [updMin, hx, hzx]
        rw [h1, hz]
      · have h1 : updMin (some x) z = some x := by simp [updMin, hx, hzx]
        rw [h1]
        exact h1

/-- Re-running the accumulator update of one zone (as the per-vehicle loop
does for each further vehicle) changes nothing. -/
theorem accUpdate_idem (mode : String) (a : VelAcc) (zb : ZoneBounds) :
    accUpdate mode (accUpdate mode a zb) zb = accUpdate mode a zb := by
  by_cases hm : mode = "norm_inf" <;>
    simp [accUpdate, hm, updMax_idem, updMin_idem]

/-- Overwriting the stored velocity bounds twice keeps only the last list. -/
theorem setVelocities_comp (v : Vehicle) (l1 l2 : List ℚ) :
    setVelocities (setVelocities v l1) l2 = setVelocities v l2 := rfl

/-- The per-vehicle loop of one overlapping zone: the accumulator settles
after the first vehicle (idempotence), and each vehicle's bounds are set to
the settled limits. -/
theorem innerFold_eq (mode : String) (zb : ZoneBounds) :
    ∀ (vehs : List Vehicle) (a : VelAcc) (pre : List Vehicle),
      vehs.foldl (fun (t : VelAcc × List Vehicle) veh =>
        (accUpdate mode t.1 zb,
         t.2 ++ [setVelocities veh (velLimitsOf mode (accUpdate mode t.1 zb))])) (a, pre) =
      (if vehs = [] then a else accUpdate mode a zb,
        pre ++ vehs.map (fun veh =>
          setVelocities veh (velLimitsOf mode (accUpdate mode a zb)))) := by
  intro vehs
  induction vehs with
  | nil => intro a pre; simp
  | cons v rest ih =>
    intro a pre
    simp only [List.foldl]
    rw [ih (accUpdate mode a zb)
      (pre ++ [setVelocities v (velLimitsOf mode (accUpdate mode a zb))])]
    rw [accUpdate_idem]
    cases rest with
    | nil => simp
    | cons r rs => simp [List.append_assoc]

/-- Zones whose footprint does not overlap the vehicle leave the governor
state untouched. -/
theorem zonesFold_no_overlap (g : Geometry) (mode : String) (s0 : Shape) (p : Point) :
    ∀ (zones : List Zone) (s : VelAcc × List Vehicle × Bool),
      (∀ z ∈ zones, g.shapesOverlap s0 p z.shape z.position = false) →
      zones.foldl (dangerZoneStep g mode s0 p) s = s := by
  intro zones
  induction zones with
  | nil => intro s _; rfl
  | cons z rest ih =>
    intro s hall
    have hz : g.shapesOverlap s0 p z.shape z.position = false :=
      hall z (List.mem_cons_self _ _)
    have hstep : dangerZoneStep g mode s0 p s z = s := by
      simp [dangerZoneStep, hz]
    simp only [List.foldl, hstep]
    exact ih s fun z' hz' => hall z' (List.mem_cons_of_mem _ hz')

/-- With at least one vehicle and at least one overlapping zone, the
governor's zone loop ends with the accumulated limits of all overlapping
zones applied to every vehicle and the overlap flag set. -/
theorem zonesFold_overlap (g : Geometry) (mode : String) (s0 : Shape) (p : Point) :
    ∀ (zones : List Zone) (a : VelAcc) (vehs : List Vehicle) (flag : Bool),
      vehs ≠ [] → overlapZones g s0 p zones ≠ [] →
      zones.foldl (dangerZoneStep g mode s0 p) (a, vehs, flag) =
        (accFold mode a (overlapZones g s0 p zones),
         vehs.map (fun veh => setVelocities veh
           (velLimitsOf mode (accFold mode a (overlapZones g s0 p zones)))), true) := by
  intro zones
  induction zones with
  | nil =>
    intro a vehs flag _ hov
    simp [overlapZones] at hov
  | cons z rest ih =>
    intro a vehs flag hne hov
    by_cases hz : g.shapesOverlap s0 p z.shape z.position = true
    · have hstep : dangerZoneStep g mode s0 p (a, vehs, flag) z =
          (accUpdate mode a z.bounds,
           vehs.map (fun veh =>
             setVelocities veh (velLimitsOf mode (accUpdate mode a z.bounds))), true) := by
        simp only [dangerZoneStep, hz, if_true]
        rw [innerFold_eq mode z.bounds vehs a []]
        rw [if_neg hne]
        simp
      have hfilter : overlapZones g s0 p (z :: rest) = z :: overlapZones g s0 p rest := by
        simp [overlapZones, List.filter_cons_of_pos, hz]
      simp only [List.foldl, hstep]
      by_cases hrest : overlapZones g s0 p rest = []
      · have hnone : ∀ z' ∈ rest, g.shapesOverlap s0 p z'.shape z'.position = false := by
          intro z' hz'
          by_contra hcon
          have hmem : z' ∈ overlapZones g s0 p rest :=
            List.mem_filter.mpr ⟨hz', by simpa using hcon⟩
          rw [hrest] at hmem
          cases hmem
        rw [zonesFold_no_overlap g mode s0 p rest _ hnone]
        rw [hfilter, hrest]
        simp [accFold]
      · have hmapne : vehs.map (fun veh =>
            setVelocities veh (velLimitsOf mode (accUpdate mode a z.bounds))) ≠ [] := by
          cases vehs with
          | nil => exact absurd rfl hne
          | cons x xs => simp
        rw [ih (accUpdate mode a z.bounds) _ true hmapne hrest]
        rw [hfilter]
        have hacc : accFold mode (accUpdate mode a z.bounds) (overlapZones g s0 p rest) =
            accFold mode a (z :: overlapZones g s0 p rest) := by
          simp [accFold]
        rw [hacc, List.map_map]
        rfl
    · have hz' : g.shapesOverlap s0 p z.shape z.position = false := by
        simpa using hz
      have hstep : dangerZoneStep g mode s0 p (a, vehs, flag) z = (a, vehs, flag) := by
        simp [dangerZoneStep, hz']
      have hfilter : overlapZones g s0 p (z :: rest) = overlapZones g s0 p rest := by
        simp [overlapZones, hz']
      simp only [List.foldl, hstep]
      rw [hfilter] at hov ⊢
      exact ih a vehs flag hne hov

/-- C5: after `update_vehicle_limits` runs on a tick where danger zones exist
but none overlaps the vehicle's footprint, every vehicle's active velocity
bounds equal that vehicle's recorded `original_bounds` (all four per-axis
bounds in `norm_inf` mode, `vmax` in scalar mode), whatever bounds were
active before (so repeated enter/exit cycles cannot drift). -/
theorem c5_restore_original_bounds (g : Geometry) (st : ProblemState)
    (v0 : Vehicle) (vs : List Vehicle) (s0 : Shape) (ss : List Shape)
    (h1 : st.vehicles = v0 :: vs) (h2 : v0.shapes = s0 :: ss)
    (h3 : st.danger_zones ≠ [])
    (h4 : ∀ z ∈ st.danger_zones,
      g.shapesOverlap s0 (vehPosOf v0) z.shape z.position = false) :
    updateVehicleLimits g st =
      .ok { st with vehicles := st.vehicles.map (restoreVehicle v0.syslimit) } ∧
    ∀ veh : Vehicle, (restoreVehicle v0.syslimit veh).velocities =
      (if v0.syslimit = "norm_inf" then
        [veh.original_bounds.vxmin, veh.original_bounds.vymin,
         veh.original_bounds.vxmax, veh.original_bounds.vymax]
      else [veh.original_bounds.vmax]) := by
  constructor
  · obtain ⟨vl, zl⟩ := st
    simp only at h1 h3 h4
    subst h1
    cases zl with
    | nil => exact absurd rfl h3
    | cons z zs =>
      have hred : updateVehicleLimits g ⟨v0 :: vs, z :: zs⟩ =
          (if (List.foldl (dangerZoneStep g v0.syslimit s0 (vehPosOf v0))
                (emptyVelAcc, v0 :: vs, false) (z :: zs)).2.2 = true then
            Except.ok ⟨(List.foldl (dangerZoneStep g v0.syslimit s0 (vehPosOf v0))
                (emptyVelAcc, v0 :: vs, false) (z :: zs)).2.1, z :: zs⟩
          else Except.ok ⟨(v0 :: vs).map (restoreVehicle v0.syslimit), z :: zs⟩) := by
        simp only [updateVehicleLimits]
        rw [h2]
      rw [hred]
      rw [zonesFold_no_overlap g v0.syslimit s0 (vehPosOf v0) (z :: zs) _ h4]
      simp
  · intro veh
    simp [restoreVehicle, setVelocities]

/-- Closed instance: with one circular vehicle, one non-overlapping zone and
scalar bounds, the governor rewrites the bounds from `original_bounds`. -/
theorem c5_restore_original_bounds_witness :
    updateVehicleLimits c9Geom ⟨[c1Vehicle (0, 0)], [c1Zone (0, 0) 1]⟩ =
      .ok ⟨[c1Vehicle (0, 0)].map (restoreVehicle (c1Vehicle (0, 0)).syslimit),
        [c1Zone (0, 0) 1]⟩ :=
  (c5_restore_original_bounds c9Geom ⟨[c1Vehicle (0, 0)], [c1Zone (0, 0) 1]⟩
    (c1Vehicle (0, 0)) [] (Shape.circle (1/5)) [] rfl rfl (by simp)
    (by decide)).1

/-- On nonzero values the truthiness-aware smaller-bound accumulator is the
running minimum. -/
theorem updMin_foldl_some :
    ∀ (xs : List ℚ) (aq : ℚ), aq ≠ 0 → (∀ x ∈ xs, x ≠ 0) →
      xs.foldl updMin (some aq) = some (xs.foldl min aq) ∧ xs.foldl min aq ≠ 0 := by
  intro xs
  induction xs with
  | nil => intro aq ha _; exact ⟨rfl, ha⟩
  | cons y ys ih =>
    intro aq ha hall
    have hy : y ≠ 0 := hall y (List.mem_cons_self _ _)
    have hstep : updMin (some aq) y = some (min aq y) := by
      by_cases hlt : y < aq
      · simp [updMin, ha, hlt, min_eq_right (le_of_lt hlt)]
      · simp [updMin, ha, hlt, min_eq_left (not_lt.mp hlt)]
    have hmin : min aq y ≠ 0 := by
      rcases min_choice aq y with h | h
      · rw [h]; exact ha
      · rw [h]; exact hy
    have hys : ∀ x ∈ ys, x ≠ 0 := fun x hx => hall x (List.mem_cons_of_mem _ hx)
    simp only [List.foldl, hstep]
    exact ih (min aq y) hmin hys

/-- On nonzero values the truthiness-aware larger-bound accumulator is the
running maximum. -/
theorem updMax_foldl_some :
    ∀ (xs : List ℚ) (aq : ℚ), aq ≠ 0 → (∀ x ∈ xs, x ≠ 0) →
      xs.foldl updMax (some aq) = some (xs.foldl max aq) ∧ xs.foldl max aq ≠ 0 := by
  intro xs
  induction xs with
  | nil => intro aq ha _; exact ⟨rfl, ha⟩
  | cons y ys ih =>
    intro aq ha hall
    have hy : y ≠ 0 := hall y (List.mem_cons_self _ _)
    have hstep : updMax (some aq) y = some (max aq y) := by
      by_cases hlt : y > aq
      · simp [updMax, ha, hlt, max_eq_right (le_of_lt hlt)]
      · simp [updMax, ha, hlt, max_eq_left (not_lt.mp hlt)]
    have hmax : max aq y ≠ 0 := by
      rcases max_choice aq y with h | h
      · rw [h]; exact ha
      · rw [h]; exact hy
    have hys : ∀ x ∈ ys, x ≠ 0 := fun x hx => hall x (List.mem_cons_of_mem _ hx)
    simp only [List.foldl, hstep]
    exact ih (max aq y) hmax hys

/-- Starting from the empty accumulator, the smaller-bound accumulation over
nonzero values yields the least value. -/
theorem updMin_foldl_none (x : ℚ) (xs : List ℚ) (hx : x ≠ 0)
    (hall : ∀ y ∈ xs, y ≠ 0) :
    (x :: xs).foldl updMin none = some (minQ (x :: xs)) := by
  have h0 : updMin none x = some x := rfl
  simp only [List.foldl, h0, minQ]
  exact (updMin_foldl_some xs x hx hall).1

/-- Starting from the empty accumulator, the larger-bound accumulation over
nonzero values yields the greatest value. -/
theorem updMax_foldl_none (x : ℚ) (xs : List ℚ) (hx : x ≠ 0)
    (hall : ∀ y ∈ xs, y ≠ 0) :
    (x :: xs).foldl updMax none = some (maxQ (x :: xs)) := by
  have h0 : updMax none x = some x := rfl
  simp only [List.foldl, h0, maxQ]
  exact (updMax_foldl_some xs x hx hall).1

/-- In scalar mode the zone-level accumulation only folds `vmax` with the
smaller-bound step. -/
theorem accFold_scalar (mode : String) (hm : mode ≠ "norm_inf") :
    ∀ (ov : List Zone) (a : VelAcc),
      accFold mode a ov =
        { a with vmax := (ov.map (·.bounds.vmax)).foldl updMin a.vmax } := by
  intro ov
  induction ov with
  | nil => intro a; simp [accFold]
  | cons z rest ih =>
    intro a
    have h1 : accFold mode a (z :: rest) = accFold mode (accUpdate mode a z.bounds) rest := by
      simp [accFold]
    rw [h1, ih]
    simp [accUpdate, hm]

/-- In per-axis mode the zone-level accumulation folds the four axis bounds
with their respective steps. -/
theorem accFold_norm_inf :
    ∀ (ov : List Zone) (a : VelAcc),
      accFold "norm_inf" a ov =
        { vxmin := (ov.map (·.bounds.vxmin)).foldl updMax a.vxmin
          vymin := (ov.map (·.bounds.vymin)).foldl updMax a.vymin
          vxmax := (ov.map (·.bounds.vxmax)).foldl updMin a.vxmax
          vymax := (ov.map (·.bounds.vymax)).foldl updMin a.vymax
          vmax := a.vmax } := by
  intro ov
  induction ov with
  | nil => intro a; simp [accFold]
  | cons z rest ih =>
    intro a
    have h1 : accFold "norm_inf" a (z :: rest) =
        accFold "norm_inf" (accUpdate "norm_inf" a z.bounds) rest := by
      simp [accFold]
    rw [h1, ih]
    simp [accUpdate]

/-- With a nonempty overlapping-zone list whose relevant bounds are all
nonzero, the limits applied by the governor are the componentwise
intersection of the overlapping zones' allowed ranges. -/
theorem velLimitsOf_accFold (mode : String) (ov : List Zone) (hne : ov ≠ [])
    (hnz : ∀ z ∈ ov, (if mode = "norm_inf" then
        z.bounds.vxmin ≠ 0 ∧ z.bounds.vymin ≠ 0 ∧ z.bounds.vxmax ≠ 0 ∧ z.bounds.vymax ≠ 0
      else z.bounds.vmax ≠ 0)) :
    velLimitsOf mode (accFold mode emptyVelAcc ov) =
      (if mode = "norm_inf" then
        [maxQ (ov.map (·.bounds.vxmin)), maxQ (ov.map (·.bounds.vymin)),
         minQ (ov.map (·.bounds.vxmax)), minQ (ov.map (·.bounds.vymax))]
      else [minQ (ov.map (·.bounds.vmax))]) := by
  cases ov with
  | nil => exact absurd rfl hne
  | cons o os =>
    by_cases hm : mode = "norm_inf"
    · subst hm
      simp only [eq_self_iff_true, if_true] at hnz ⊢
      rw [accFold_norm_inf]
      have e1 : (((o :: os).map (·.bounds.vxmin)).foldl updMax emptyVelAcc.vxmin) =
          some (maxQ ((o :: os).map (·.bounds.vxmin))) := by
        simp only [List.map_cons, emptyVelAcc]
        exact updMax_foldl_none _ _ (hnz o (List.mem_cons_self _ _)).1
          (fun y hy => by
            obtain ⟨z, hz, rfl⟩ := List.mem_map.mp hy
            exact (hnz z (List.mem_cons_of_mem _ hz)).1)
      have e2 : (((o :: os).map (·.bounds.vymin)).foldl updMax emptyVelAcc.vymin) =
          some (maxQ ((o :: os).map (·.bounds.vymin))) := by
        simp only [List.map_cons, emptyVelAcc]
        exact updMax_foldl_none _ _ (hnz o (List.mem_cons_self _ _)).2.1
          (fun y hy => by
            obtain ⟨z, hz, rfl⟩ := List.mem_map.mp hy
            exact (hnz z (List.mem_cons_of_mem _ hz)).2.1)
      have e3 : (((o :: os).map (·.bounds.vxmax)).foldl updMin emptyVelAcc.vxmax) =
          some (minQ ((o :: os).map (·.bounds.vxmax))) := by
        simp only [List.map_cons, emptyVelAcc]
        exact updMin_foldl_none _ _ (hnz o (List.mem_cons_self _ _)).2.2.1
          (fun y hy => by
            obtain ⟨z, hz, rfl⟩ := List.mem_map.mp hy
            exact (hnz z (List.mem_cons_of_mem _ hz)).2.2.1)
      have e4 : (((o :: os).map (·.bounds.vymax)).foldl updMin emptyVelAcc.vymax) =
          some (minQ ((o :: os).map (·.bounds.vymax))) := by
        simp only [List.map_cons, emptyVelAcc]
        exact updMin_foldl_none _ _ (hnz o (List.mem_cons_self _ _)).2.2.2
          (fun y hy => by
            obtain ⟨z, hz, rfl⟩ := List.mem_map.mp hy
            exact (hnz z (List.mem_cons_of_mem _ hz)).2.2.2)
      simp only [velLimitsOf, eq_self_iff_true, if_true]
      rw [e1, e2, e3, e4]
      simp
    · simp only [if_neg hm] at hnz ⊢
      rw [accFold_scalar mode hm]
      have e1 : (((o :: os).map (·.bounds.vmax)).foldl updMin emptyVelAcc.vmax) =
          some (minQ ((o :: os).map (·.bounds.vmax))) := by
        simp only [List.map_cons, emptyVelAcc]
        exact updMin_foldl_none _ _ (hnz o (List.mem_cons_self _ _))
          (fun y hy => by
            obtain ⟨z, hz, rfl⟩ := List.mem_map.mp hy
            exact hnz z (List.mem_cons_of_mem _ hz))
      simp only [velLimitsOf, if_neg hm]
      rw [e1]
      simp

/-- C6 (amended): when several danger zones overlap the vehicle footprint in
one `update_vehicle_limits` call, the bound applied to every vehicle is the
intersection of the overlapping zones' allowed ranges — the largest
`vxmin`/`vymin` and smallest `vxmax`/`vymax` in per-axis mode, the smallest
`vmax` in scalar mode — provided none of the relevant bound values of the
overlapping zones equals 0.  (A 0-valued accumulator is falsy in the source's
`if not vxmin or ...` tests, so it would be overwritten by the next
overlapping zone's value; the counterexample exercises exactly that.) -/
theorem c6_intersection_amended (g : Geometry) (st : ProblemState)
    (v0 : Vehicle) (vs : List Vehicle) (s0 : Shape) (ss : List Shape)
    (h1 : st.vehicles = v0 :: vs) (h2 : v0.shapes = s0 :: ss)
    (hov : overlapZones g s0 (vehPosOf v0) st.danger_zones ≠ [])
    (hnz : ∀ z ∈ overlapZones g s0 (vehPosOf v0) st.danger_zones,
      (if v0.syslimit = "norm_inf" then
        z.bounds.vxmin ≠ 0 ∧ z.bounds.vymin ≠ 0 ∧ z.bounds.vxmax ≠ 0 ∧ z.bounds.vymax ≠ 0
      else z.bounds.vmax ≠ 0)) :
    updateVehicleLimits g st = .ok { st with vehicles := st.vehicles.map (fun veh =>
      setVelocities veh (
        if v0.syslimit = "norm_inf" then
          [maxQ ((overlapZones g s0 (vehPosOf v0) st.danger_zones).map (·.bounds.vxmin)),
           maxQ ((overlapZones g s0 (vehPosOf v0) st.danger_zones).map (·.bounds.vymin)),
           minQ ((overlapZones g s0 (vehPosOf v0) st.danger_zones).map (·.bounds.vxmax)),
           minQ ((overlapZones g s0 (vehPosOf v0) st.danger_zones).map (·.bounds.vymax))]
        else [minQ ((overlapZones g s0 (vehPosOf v0) st.danger_zones).map (·.bounds.vmax))])) } := by
  obtain ⟨vl, zl⟩ := st
  simp only at h1 hov hnz ⊢
  subst h1
  cases zl with
  | nil => simp [overlapZones] at hov
  | cons z zs =>
    have hred : updateVehicleLimits g ⟨v0 :: vs, z :: zs⟩ =
        (if (List.foldl (dangerZoneStep g v0.syslimit s0 (vehPosOf v0))
              (emptyVelAcc, v0 :: vs, false) (z :: zs)).2.2 = true then
          Except.ok ⟨(List.foldl (dangerZoneStep g v0.syslimit s0 (vehPosOf v0))
              (emptyVelAcc, v0 :: vs, false) (z :: zs)).2.1, z :: zs⟩
        else Except.ok ⟨(v0 :: vs).map (restoreVehicle v0.syslimit), z :: zs⟩) := by
      simp only [updateVehicleLimits]
      rw [h2]
    rw [hred]
    rw [zonesFold_overlap g v0.syslimit s0 (vehPosOf v0) (z :: zs) emptyVelAcc
      (v0 :: vs) false (by simp) hov]
    rw [velLimitsOf_accFold v0.syslimit _ hov hnz]
    simp

/-- C6 (counterexample to the claim as stated): both zones overlap the
vehicle footprint and the smallest `vmax` across them is 0 (zone A's), yet
the bound applied to the vehicle is zone B's `vmax = 1`: the 0-valued
accumulator is falsy in the source's `not vmax` test, so zone B's larger
value overwrites it.  The applied bound is therefore not the intersection of
the allowed ranges. -/
theorem c6_intersection_counterexample :
    c6Geom.shapesOverlap (Shape.circle (1/5)) (vehPosOf (c1Vehicle (0, 0)))
      c6ZoneA.shape c6ZoneA.position = true ∧
    c6Geom.shapesOverlap (Shape.circle (1/5)) (vehPosOf (c1Vehicle (0, 0)))
      c6ZoneB.shape c6ZoneB.position = true ∧
    c6ZoneA.bounds.vmax = 0 ∧ c6ZoneB.bounds.vmax = 1 ∧
    minQ ([c6ZoneA, c6ZoneB].map (·.bounds.vmax)) = 0 ∧
    updateVehicleLimits c6Geom ⟨[c1Vehicle (0, 0)], [c6ZoneA, c6ZoneB]⟩ =
      .ok ⟨[setVelocities (c1Vehicle (0, 0)) [1]], [c6ZoneA, c6ZoneB]⟩ ∧
    (1 : ℚ) ≠ 0 := by
  refine ⟨rfl, rfl, rfl, rfl, by decide, ?_, by norm_num⟩
  rfl

/-- Closed instance of the amended intersection property: two overlapping
zones with nonzero scalar bounds yield the smaller bound. -/
theorem c6_intersection_amended_witness :
    updateVehicleLimits c6Geom ⟨[c1Vehicle (0, 0)], [c6ZoneC, c6ZoneD]⟩ =
      .ok ⟨[c1Vehicle (0, 0)].map (fun veh =>
        setVelocities veh (
          if (c1Vehicle (0, 0)).syslimit = "norm_inf" then
            [maxQ ((overlapZones c6Geom (Shape.circle (1/5))
                (vehPosOf (c1Vehicle (0, 0))) [c6ZoneC, c6ZoneD]).map (·.bounds.vxmin)),
             maxQ ((overlapZones c6Geom (Shape.circle (1/5))
                (vehPosOf (c1Vehicle (0, 0))) [c6ZoneC, c6ZoneD]).map (·.bounds.vymin)),
             minQ ((overlapZones c6Geom (Shape.circle (1/5))
                (vehPosOf (c1Vehicle (0, 0))) [c6ZoneC, c6ZoneD]).map (·.bounds.vxmax)),
             minQ ((overlapZones c6Geom (Shape.circle (1/5))
                (vehPosOf (c1Vehicle (0, 0))) [c6ZoneC, c6ZoneD]).map (·.bounds.vymax))]
          else [minQ ((overlapZones c6Geom (Shape.circle (1/5))
              (vehPosOf (c1Vehicle (0, 0))) [c6ZoneC, c6ZoneD]).map (·.bounds.vmax))])),
        [c6ZoneC, c6ZoneD]⟩ :=
  c6_intersection_amended c6Geom ⟨[c1Vehicle (0, 0)], [c6ZoneC, c6ZoneD]⟩
    (c1Vehicle (0, 0)) [] (Shape.circle (1/5)) [] rfl rfl (by decide) (by decide)

/-- A zone already bearing `old_dimensions` is skipped entirely. -/
theorem enlargeZone_skip (g : Geometry) (v : Vehicle) (s0 : Shape) (z : Zone)
    (h : z.old_dimensions.isSome = true) : enlargeZone g v s0 z = .ok none := by
  simp only [enlargeZone]
  rw [if_pos h]

/-- A zone mutated by `enlargeZone` keeps its position and bounds and comes
back carrying the `old_dimensions` marker, holding exactly the
pre-enlargement dimension list. -/
theorem enlargeZone_some (g : Geometry) (v : Vehicle) (s0 : Shape) (z z' : Zone)
    (h : enlargeZone g v s0 z = .ok (some z')) :
    z'.position = z.position ∧ z'.bounds = z.bounds ∧
    z'.old_dimensions = some (dimsList z.shape) := by
  by_cases hod : z.old_dimensions.isSome = true
  · rw [enlargeZone_skip g v s0 z hod] at h
    simp at h
  · simp only [enlargeZone] at h
    rw [if_neg hod] at h
    rcases hsh : z.shape with r | ⟨w, hh, verts⟩
    · rw [hsh] at h
      simp only [Except.ok.injEq, Option.some.injEq] at h
      subst h
      simp [hsh, dimsList]
    · rw [hsh] at h
      simp only [enlargeOption] at h
      norm_num at h
      cases htr : v.trajectories with
      | none =>
        rw [htr] at h
        simp at h
      | some traj =>
        rw [htr] at h
        simp only [] at h
        cases hfi : findIntersection g s0 z traj with
        | none =>
          rw [hfi] at h
          simp at h
        | some pr =>
          obtain ⟨i, ip⟩ := pr
          rw [hfi] at h
          simp only [] at h
          cases hbw : backWalk g traj (marginOf v s0 z) i ip 0 with
          | none =>
            rw [hbw] at h
            simp at h
          | some out =>
            obtain ⟨outer, dd⟩ := out
            rw [hbw] at h
            simp only [] at h
            split_ifs at h with h1 h2
            · simp only [Except.ok.injEq, Option.some.injEq] at h
              subst h
              simp [hsh, dimsList]
            · simp only [Except.ok.injEq, Option.some.injEq] at h
              subst h
              simp [hsh, dimsList]

/-- Setting an index to the value it already holds leaves the list
unchanged. -/
theorem set_getElem?_self {α : Type _} : ∀ (l : List α) (i : Nat) (a : α),
    l[i]? = some a → l.set i a = l := by
  intro l
  induction l with
  | nil => intro i a h; simp at h
  | cons x xs ih =>
    intro i a h
    cases i with
    | zero =>
      simp at h
      simp [List.set, h]
    | succ n =>
      simp at h
      simp [List.set, ih n a h]

/-- The option-2 (trajectory-aware) rectangle branch leaves the zone
untouched when the vehicle has no stored trajectory or no trajectory point
intersects the zone. -/
theorem enlargeZone_rect_noop (g : Geometry) (v : Vehicle) (s0 : Shape)
    (z : Zone) (w h : ℚ) (verts : List Point)
    (hod : z.old_dimensions = none) (hsh : z.shape = .rectangle w h verts)
    (hno : v.trajectories = none ∨
      ∀ traj, v.trajectories = some traj → findIntersection g s0 z traj = none) :
    enlargeZone g v s0 z = .ok none := by
  simp only [enlargeZone]
  rw [if_neg (by simp [hod])]
  rw [hsh]
  simp only [enlargeOption]
  norm_num
  cases htr : v.trajectories with
  | none => simp
  | some traj =>
    simp only []
    rcases hno with hnone | hfi
    · rw [htr] at hnone
      cases hnone
    · rw [hfi traj htr]

/-- Dimension monotonicity of a mutated zone, under the provisos that the
computed braking margin is nonnegative (circle case) and that in the
rectangle y-branch the outer point clears the half-height by at least the
vehicle size. -/
theorem enlargeZone_dims (g : Geometry) (v : Vehicle) (s0 : Shape) (z z' : Zone)
    (h : enlargeZone g v s0 z = .ok (some z'))
    (hm : 0 ≤ marginOf v s0 z)
    (hy : ∀ outer dd, outerPointOf g v s0 z = some (outer, dd) →
      ∀ w hh verts, z.shape = .rectangle w hh verts →
      ¬(w / 2 < (g.distBetween outer z.position).1) →
      hh / 2 < (g.distBetween outer z.position).2 →
      vehSizeOf s0 + hh / 2 ≤ (g.distBetween outer z.position).2) :
    dimsLe z.shape z'.shape := by
  by_cases hod : z.old_dimensions.isSome = true
  · rw [enlargeZone_skip g v s0 z hod] at h
    simp at h
  · simp only [enlargeZone] at h
    rw [if_neg hod] at h
    rcases hsh : z.shape with r | ⟨w, hh, verts⟩
    · rw [hsh] at h
      simp only [Except.ok.injEq, Option.some.injEq] at h
      subst h
      simp only [hsh, dimsLe, dimsList]
      refine List.Forall₂.cons ?_ List.Forall₂.nil
      linarith
    · rw [hsh] at h
      simp only [enlargeOption] at h
      norm_num at h
      cases htr : v.trajectories with
      | none =>
        rw [htr] at h
        simp at h
      | some traj =>
        rw [htr] at h
        simp only [] at h
        cases hfi : findIntersection g s0 z traj with
        | none =>
          rw [hfi] at h
          simp at h
        | some pr =>
          obtain ⟨i, ip⟩ := pr
          rw [hfi] at h
          simp only [] at h
          cases hbw : backWalk g traj (marginOf v s0 z) i ip 0 with
          | none =>
            rw [hbw] at h
            simp at h
          | some out =>
            obtain ⟨outer, dd⟩ := out
            rw [hbw] at h
            simp only [] at h
            have houter : outerPointOf g v s0 z = some (outer, dd) := by
              simp [outerPointOf, htr, hfi, hbw]
            split_ifs at h with h1 h2
            · simp only [Except.ok.injEq, Option.some.injEq] at h
              subst h
              simp only [hsh, dimsLe, dimsList]
              refine List.Forall₂.cons ?_ (List.Forall₂.cons ?_ List.Forall₂.nil)
              · linarith
              · linarith
            · simp only [Except.ok.injEq, Option.some.injEq] at h
              subst h
              have hg := hy outer dd houter w hh verts hsh h1 h2
              simp only [hsh, dimsLe, dimsList]
              refine List.Forall₂.cons ?_ (List.Forall₂.cons ?_ List.Forall₂.nil)
              · linarith
              · linarith

/-- Dissection of a successful `enlarge_danger_zones` call: either the state
comes back untouched, or exactly the closest zone has been replaced by its
mutated version. -/
theorem enlargeDangerZones_ok_cases (g : Geometry) (st st' : ProblemState)
    (v0 : Vehicle) (vs : List Vehicle) (s0 : Shape) (ss : List Shape)
    (h1 : st.vehicles = v0 :: vs) (h2 : v0.shapes = s0 :: ss)
    (h : enlargeDangerZones g st = .ok st') :
    st' = st ∨
    ∃ j z zj', closestZoneIdx g (vehPosOf v0) st.danger_zones = some j ∧
      st.danger_zones[j]? = some z ∧ enlargeZone g v0 s0 z = .ok (some zj') ∧
      st' = { st with danger_zones := st.danger_zones.set j zj' } := by
  obtain ⟨vl, zl⟩ := st
  simp only at h1 ⊢
  subst h1
  cases zl with
  | nil =>
    simp only [enlargeDangerZones] at h
    simp only [Except.ok.injEq] at h
    exact Or.inl h.symm
  | cons z0 zs =>
    simp only [enlargeDangerZones] at h
    rw [h2] at h
    simp only [] at h
    cases hci : closestZoneIdx g (vehPosOf v0) (z0 :: zs) with
    | none =>
      rw [hci] at h
      simp at h
    | some j =>
      rw [hci] at h
      simp only [] at h
      cases hgj : (z0 :: zs)[j]? with
      | none =>
        rw [hgj] at h
        simp at h
      | some zj =>
        rw [hgj] at h
        simp only [] at h
        cases henl : enlargeZone g v0 s0 zj with
        | error e =>
          rw [henl] at h
          simp at h
        | ok oz =>
          rw [henl] at h
          cases oz with
          | none =>
            simp only [Except.ok.injEq] at h
            exact Or.inl h.symm
          | some zj' =>
            simp only [Except.ok.injEq] at h
            exact Or.inr ⟨j, zj, zj', rfl, hgj, henl, h.symm⟩

/-- When the closest zone is already enlarged, `enlarge_danger_zones` returns
the state untouched. -/
theorem enlargeDangerZones_skip (g : Geometry) (st : ProblemState)
    (v0 : Vehicle) (vs : List Vehicle) (s0 : Shape) (ss : List Shape)
    (i : Nat) (z : Zone)
    (h1 : st.vehicles = v0 :: vs) (h2 : v0.shapes = s0 :: ss)
    (hci : closestZoneIdx g (vehPosOf v0) st.danger_zones = some i)
    (hz : st.danger_zones[i]? = some z)
    (hod : z.old_dimensions.isSome = true) :
    enlargeDangerZones g st = .ok st := by
  obtain ⟨vl, zl⟩ := st
  simp only at h1 hci hz ⊢
  subst h1
  cases zl with
  | nil => rfl
  | cons z0 zs =>
    simp only [enlargeDangerZones]
    rw [h2]
    simp only []
    rw [hci]
    simp only []
    rw [hz]
    simp only []
    rw [enlargeZone_skip g v0 s0 z hod]

/-- Replacing a zone by one at the same position does not change which zone
is closest to the vehicle. -/
theorem closestZoneIdx_set (g : Geometry) (p : Point) (zones : List Zone)
    (j : Nat) (z zj' : Zone) (hz : zones[j]? = some z)
    (hpos : zj'.position = z.position) :
    closestZoneIdx g p (zones.set j zj') = closestZoneIdx g p zones := by
  unfold closestZoneIdx
  rw [List.map_set]
  congr 1
  have hmem : (zones.map fun zz => g.dist p zz.position)[j]? =
      some (g.dist p zj'.position) := by
    rw [List.getElem?_map, hz]
    simp [hpos]
  exact set_getElem?_self _ _ _ hmem

/-- C2: `enlarge_danger_zones` is idempotent per zone — if the nearest danger
zone already carries the `old_dimensions` marker the call returns the state
unchanged (skipping all further checks), and a second call on the result of
any successful call is a no-op, so two calls without intervening state change
enlarge the zone exactly once. -/
theorem c2_enlarge_idempotent (g : Geometry) (st st' : ProblemState)
    (v0 : Vehicle) (vs : List Vehicle) (s0 : Shape) (ss : List Shape)
    (h1 : st.vehicles = v0 :: vs) (h2 : v0.shapes = s0 :: ss) :
    (∀ i z, closestZoneIdx g (vehPosOf v0) st.danger_zones = some i →
      st.danger_zones[i]? = some z → z.old_dimensions.isSome = true →
      enlargeDangerZones g st = .ok st) ∧
    (enlargeDangerZones g st = .ok st' → enlargeDangerZones g st' = .ok st') := by
  constructor
  · intro i z hci hz hod
    exact enlargeDangerZones_skip g st v0 vs s0 ss i z h1 h2 hci hz hod
  · intro h
    rcases enlargeDangerZones_ok_cases g st st' v0 vs s0 ss h1 h2 h with rfl |
      ⟨j, z, zj', hci, hgj, henl, rfl⟩
    · exact h
    · obtain ⟨hpos, hbounds, hold⟩ := enlargeZone_some g v0 s0 z zj' henl
      have hlen : j < st.danger_zones.length := by
        by_contra hc
        push_neg at hc
        rw [List.getElem?_eq_none hc] at hgj
        cases hgj
      have hci' : closestZoneIdx g (vehPosOf v0) (st.danger_zones.set j zj') = some j := by
        rw [closestZoneIdx_set g (vehPosOf v0) st.danger_zones j z zj' hgj hpos]
        exact hci
      have hz' : (st.danger_zones.set j zj')[j]? = some zj' :=
        List.getElem?_set_self hlen
      refine enlargeDangerZones_skip g _ v0 vs s0 ss j zj' ?_ h2 ?_ ?_ ?_
      · simpa using h1
      · simpa using hci'
      · simpa using hz'
      · rw [hold]
        rfl

/-- Closed instance: a call on a state whose only zone is already enlarged
returns the state unchanged. -/
theorem c2_enlarge_idempotent_witness :
    enlargeDangerZones c9Geom ⟨[c1Vehicle (0, 0)], [c2Zone]⟩ =
      .ok ⟨[c1Vehicle (0, 0)], [c2Zone]⟩ :=
  (c2_enlarge_idempotent c9Geom ⟨[c1Vehicle (0, 0)], [c2Zone]⟩
    ⟨[c1Vehicle (0, 0)], [c2Zone]⟩ (c1Vehicle (0, 0)) [] (Shape.circle (1/5)) []
    rfl rfl).1 0 c2Zone rfl rfl rfl

/-- C3 (amended): whenever `enlarge_danger_zones` mutates a zone's shape,
`old_dimensions` is set to exactly the pre-enlargement dimension list, and
the resulting dimensions are at least the pre-call dimensions provided the
computed braking margin is nonnegative and, when the rectangle y-branch is
taken, the outer point's y-distance from the zone center is at least the
vehicle size plus half the height.  (The counterexample shows the dimension
bound fails without the margin proviso: a zone whose reduced bound exceeds
the vehicle bound gives a negative margin and the zone shrinks.) -/
theorem c3_monotonicity_amended (g : Geometry) (st st' : ProblemState)
    (v0 : Vehicle) (vs : List Vehicle) (s0 : Shape) (ss : List Shape)
    (i : Nat) (z z' : Zone)
    (h1 : st.vehicles = v0 :: vs) (h2 : v0.shapes = s0 :: ss)
    (h : enlargeDangerZones g st = .ok st')
    (hz : st.danger_zones[i]? = some z) (hz' : st'.danger_zones[i]? = some z')
    (hne : z'.shape ≠ z.shape)
    (hm : 0 ≤ marginOf v0 s0 z)
    (hy : ∀ outer dd, outerPointOf g v0 s0 z = some (outer, dd) →
      ∀ w hh verts, z.shape = .rectangle w hh verts →
      ¬(w / 2 < (g.distBetween outer z.position).1) →
      hh / 2 < (g.distBetween outer z.position).2 →
      vehSizeOf s0 + hh / 2 ≤ (g.distBetween outer z.position).2) :
    z'.old_dimensions = some (dimsList z.shape) ∧ dimsLe z.shape z'.shape := by
  rcases enlargeDangerZones_ok_cases g st st' v0 vs s0 ss h1 h2 h with rfl |
    ⟨j, zz, zj', hci, hgj, henl, rfl⟩
  · rw [hz] at hz'
    injection hz' with he
    subst he
    exact absurd rfl hne
  · by_cases hij : i = j
    · subst hij
      have hzz : zz = z := by
        rw [hgj] at hz
        injection hz
      subst hzz
      have hlen : i < st.danger_zones.length := by
        by_contra hc
        push_neg at hc
        rw [List.getElem?_eq_none hc] at hgj
        cases hgj
      have hset : (st.danger_zones.set i zj')[i]? = some zj' :=
        List.getElem?_set_self hlen
      have hzj : z' = zj' := by
        simp only [] at hz'
        rw [hset] at hz'
        injection hz' with he
        exact he.symm
      subst hzj
      exact ⟨(enlargeZone_some g v0 s0 zz z' henl).2.2,
        enlargeZone_dims g v0 s0 zz z' henl hm hy⟩
    · have hpres : (st.danger_zones.set j zj')[i]? = st.danger_zones[i]? :=
        List.getElem?_set_ne (fun hc => hij hc.symm)
      simp only [] at hz'
      rw [hpres, hz] at hz'
      injection hz' with he
      subst he
      exact absurd rfl hne

/-- C3 (counterexample to the claim as stated): with a zone whose reduced
bound 4 exceeds the vehicle bound 1, the computed margin is negative
(-13/10) and the mutation shrinks the zone radius from 1 to -3/10, so the
resulting dimensions are not ≥ the pre-call dimensions. -/
theorem c3_monotonicity_counterexample :
    enlargeDangerZones c9Geom ⟨[c3Vehicle], [c3Zone]⟩ =
      .ok ⟨[c3Vehicle], [{ c3Zone with
        shape := .circle (-3/10)
        old_dimensions := some [1] }]⟩ ∧
    dimsList c3Zone.shape = [1] ∧
    dimsList (Shape.circle (-3/10)) = [-3/10] ∧
    ¬ dimsLe c3Zone.shape (Shape.circle (-3/10)) := by
  have habs : |(-3 : ℚ)| = 3 := by
    rw [abs_of_nonpos] <;> norm_num
  refine ⟨?_, rfl, rfl, ?_⟩
  · simp [enlargeDangerZones, closestZoneIdx, argminIdx, vehPosOf, enlargeZone,
      c3Vehicle, c3Zone, enlargeOption]
    norm_num [marginOf, brakeDistOf, tSlowDownOf, velDifferenceOf, vehSizeOf,
      c3Vehicle, c3Zone, habs]
  · intro hle
    simp only [c3Zone, dimsLe, dimsList] at hle
    rcases hle with _ | ⟨h1, _⟩
    linarith

/-- Closed instance of the amended monotonicity: the C1 scenario's mutation
enlarges the radius and records the old dimensions. -/
theorem c3_monotonicity_amended_witness :
    c3WZone.old_dimensions = some (dimsList (c1Zone (0, 0) 1).shape) ∧
    dimsLe (c1Zone (0, 0) 1).shape c3WZone.shape := by
  have habs : |(3 : ℚ) / 2| = 3 / 2 := by
    rw [abs_of_nonneg] ; norm_num
  have hEnl : enlargeDangerZones c9Geom ⟨[c1Vehicle (0, 0)], [c1Zone (0, 0) 1]⟩ =
      .ok ⟨[c1Vehicle (0, 0)], [c3WZone]⟩ := by
    simp [enlargeDangerZones, closestZoneIdx, argminIdx, vehPosOf, enlargeZone,
      c1Vehicle, c1Zone, c3WZone, enlargeOption]
    norm_num [marginOf, brakeDistOf, tSlowDownOf, velDifferenceOf, vehSizeOf,
      c1Vehicle, c1Zone, habs]
  exact c3_monotonicity_amended c9Geom ⟨[c1Vehicle (0, 0)], [c1Zone (0, 0) 1]⟩
    ⟨[c1Vehicle (0, 0)], [c3WZone]⟩ (c1Vehicle (0, 0)) [] (Shape.circle (1/5)) []
    0 (c1Zone (0, 0) 1) c3WZone rfl rfl hEnl rfl rfl
    (by
      intro hc
      simp only [c3WZone, c1Zone] at hc
      injection hc with he
      norm_num at he)
    (by norm_num [marginOf, brakeDistOf, tSlowDownOf, velDifferenceOf,
      vehSizeOf, c1Vehicle, c1Zone, habs])
    (fun outer dd hout w hh verts hsh => by simp [c1Zone] at hsh)

/-- C4 (code bug): in the trajectory-aware x-branch the height update reads
the width field after it has already been enlarged, which makes the height
increment exactly zero.  At this input the outer point's x-distance is 5,
half the old width is 1, so the claimed common increment is
2*(5 - 1) = 8: the width indeed grows 2 → 10, but the height stays 2
instead of growing to 10. -/
theorem c4_xbranch_height_unchanged :
    enlargeDangerZones c4Geom ⟨[c4Vehicle], [c4Zone]⟩ =
      .ok ⟨[c4Vehicle], [{ c4Zone with
        shape := .rectangle 10 2 []
        old_dimensions := some [2, 2] }]⟩ ∧
    ((2 : ℚ) / 2 < 5) ∧
    (2 * ((5 : ℚ) - 2 / 2) = 8) ∧
    ((2 : ℚ) ≠ 2 + 2 * ((5 : ℚ) - 2 / 2)) := by
  have habs : |(3 : ℚ) / 2| = 3 / 2 := by
    rw [abs_of_nonneg] ; norm_num
  have hmarg : marginOf c4Vehicle (Shape.circle (1/5)) c4Zone = 83/40 := by
    norm_num [marginOf, brakeDistOf, tSlowDownOf, velDifferenceOf, vehSizeOf,
      c4Vehicle, c1Vehicle, c4Zone, habs]
  have hfi : findIntersection c4Geom (Shape.circle (1/5)) c4Zone [(5, 0), (1, 0)] =
      some (1, (1, 0)) := by
    norm_num [findIntersection, List.findIdx?, c4Geom, Prod.ext_iff]
    exact ⟨rfl, rfl⟩
  have hbw : backWalk c4Geom [(5, 0), (1, 0)]
      (marginOf c4Vehicle (Shape.circle (1/5)) c4Zone) 1 (1, 0) 0 =
      some ((5, 0), 4) := by
    rw [hmarg]
    norm_num [backWalk, c4Geom]
  refine ⟨?_, by norm_num, by norm_num, by norm_num⟩
  simp only [enlargeDangerZones]
  have hci : closestZoneIdx c4Geom (vehPosOf c4Vehicle) [c4Zone] = some 0 := rfl
  rw [show c4Vehicle.shapes = [Shape.circle (1/5)] from rfl]
  simp only []
  rw [hci]
  simp only []
  simp only [enlargeZone]
  rw [show ([c4Zone] : List Zone)[0]? = some c4Zone from rfl]
  simp only []
  rw [if_neg (by simp [c4Zone])]
  rw [show c4Zone.shape = Shape.rectangle 2 2 [] from rfl]
  simp only [enlargeOption]
  norm_num
  rw [show c4Vehicle.trajectories = some [((5 : ℚ), (0 : ℚ)), (1, 0)] from rfl]
  simp only []
  rw [hfi]
  simp only []
  rw [hbw]
  simp only []
  have habs5 : |(5 : ℚ) - 0| = 5 := by
    rw [abs_of_nonneg (by norm_num : (0 : ℚ) ≤ 5 - 0)]
    norm_num
  norm_num [c4Geom, c4Zone, habs5]

/-- C10: when the nearest danger zone is rectangular and not yet enlarged,
and the vehicle has no recorded trajectory or no trajectory point intersects
the zone, `enlarge_danger_zones` returns the state completely unchanged — no
dimensions or vertices change and `old_dimensions` stays unset, so a later
call reaches the same branch again; and the uniform all-sides policy is dead
because the policy selector is fixed to 2 (the trajectory-aware option). -/
theorem c10_rect_no_trajectory_noop (g : Geometry) (st : ProblemState)
    (v0 : Vehicle) (vs : List Vehicle) (s0 : Shape) (ss : List Shape)
    (i : Nat) (z : Zone) (w h : ℚ) (verts : List Point)
    (h1 : st.vehicles = v0 :: vs) (h2 : v0.shapes = s0 :: ss)
    (hci : closestZoneIdx g (vehPosOf v0) st.danger_zones = some i)
    (hz : st.danger_zones[i]? = some z)
    (hod : z.old_dimensions = none)
    (hsh : z.shape = .rectangle w h verts)
    (hno : v0.trajectories = none ∨
      ∀ traj, v0.trajectories = some traj → findIntersection g s0 z traj = none) :
    enlargeDangerZones g st = .ok st ∧ enlargeOption = 2 := by
  refine ⟨?_, rfl⟩
  obtain ⟨vl, zl⟩ := st
  simp only at h1 hci hz ⊢
  subst h1
  cases zl with
  | nil => rfl
  | cons z0 zs =>
    simp only [enlargeDangerZones]
    rw [h2]
    simp only []
    rw [hci]
    simp only []
    rw [hz]
    simp only []
    rw [enlargeZone_rect_noop g v0 s0 z w h verts hod hsh hno]

/-- Closed instance: a vehicle without stored trajectories leaves the
rectangular zone untouched. -/
theorem c10_rect_no_trajectory_noop_witness :
    enlargeDangerZones c9Geom ⟨[c1Vehicle (0, 0)], [c10Zone]⟩ =
      .ok ⟨[c1Vehicle (0, 0)], [c10Zone]⟩ ∧ enlargeOption = 2 :=
  c10_rect_no_trajectory_noop c9Geom ⟨[c1Vehicle (0, 0)], [c10Zone]⟩
    (c1Vehicle (0, 0)) [] (Shape.circle (1/5)) [] 0 c10Zone 2 2 []
    rfl rfl rfl rfl rfl rfl (Or.inl rfl)
